import Mathlib

/-! Catalog synchronisation (`pkg/catalog/manager/crd.go`).

A shallow embedding of the catalog manager's reconciliation code.

* Go maps are association lists (`GoMap`); a `range` over a map visits the
  entries in the order chosen by `Runtime.rangeOrder`, an arbitrary permutation.
* The four persistence clients of `Manager` are functions of the calls issued so
  far (the log) and of the argument, so a store may answer from its history and
  may fail at any call.
* The state threaded through the code is the log of client calls and the shared
  `tagMap`; both survive an error return, as the Go map and the stores do.
* `gzip`, `sha256`, `hex` and `base64` are library functions, taken as the
  parameters of `Codec`.
-/

namespace CatalogManager

/-! ## Go maps -/

/-- A Go `map[string]V`, as an association list. A well-formed map has distinct keys. -/
abbrev GoMap (V : Type) := List (String × V)

/-- The lookup `m[k]` with its `ok` flag. -/
def mapGet {V : Type} (m : GoMap V) (k : String) : Option V :=
  match m with
  | [] => none
  | (k1, v1) :: rest => if k1 = k then some v1 else mapGet rest k

/-- The keys of a map. -/
def mapKeys {V : Type} (m : GoMap V) : List String := m.map Prod.fst

/-- The assignment `m[k] = v`: the entry of `k` is overwritten, or added when `k` is new. -/
def mapSet {V : Type} (m : GoMap V) (k : String) (v : V) : GoMap V :=
  if k ∈ mapKeys m then m.map (fun e => if e.1 = k then (e.1, v) else e)
  else m ++ [(k, v)]

/-- The builtin `delete(m, k)`. -/
def mapDelete {V : Type} (m : GoMap V) (k : String) : GoMap V :=
  m.filter (fun e => decide (e.1 ≠ k))

/-! ## Errors -/

/-- The status reason of an error, as `kerrors` classifies it. `Panic` stands for a
run-time panic (an assignment into a nil map). -/
inductive Reason where
  | NotFound
  | AlreadyExists
  | Unknown
  | Panic
deriving DecidableEq, Repr

/-- A non-nil Go `error`. A possibly-nil `error` is an `Option Err`. -/
structure Err where
  reason : Reason
  msg : String
deriving DecidableEq, Repr

/-- The test `kerrors.IsNotFound`. -/
def IsNotFound (e : Err) : Bool := decide (e.reason = Reason.NotFound)

/-- The test `kerrors.IsAlreadyExists`. -/
def IsAlreadyExists (e : Err) : Bool := decide (e.reason = Reason.AlreadyExists)

/-- The wrapper `errors.Wrapf(err, msg)`. -/
def Wrapf (e : Err) (msg : String) : Err :=
  { reason := Reason.Unknown, msg := msg ++ ": " ++ e.msg }

/-- The error `errors.Errorf("failed to update templates. Multiple error occurred: %v", errs)`. -/
def Errorf (errs : List Err) : Err :=
  { reason := Reason.Unknown,
    msg := "failed to update templates. Multiple error occurred: [" ++
      " ".intercalate (errs.map Err.msg) ++ "]" }

/-! ## Records -/

/-- Modelled from the spec: the fields of `v3.TemplateVersionSpec` the manager reads
or writes (the type is declared outside the sources at hand). `Files = none` is the nil map. -/
structure TemplateVersionSpec where
  Version : String
  Digest : String
  Files : Option (GoMap String)
  Readme : String
  AppReadme : String
deriving DecidableEq, Repr

/-- Modelled from the spec: `v3.TemplateVersion`. -/
structure TemplateVersion where
  Name : String
  Labels : GoMap String
  Spec : TemplateVersionSpec
deriving DecidableEq, Repr

/-- Modelled from the spec: `v3.TemplateSpec`. -/
structure TemplateSpec where
  DisplayName : String
  Icon : String
  Versions : List TemplateVersionSpec
deriving DecidableEq, Repr

/-- Modelled from the spec: `v3.Template`. -/
structure Template where
  Name : String
  Labels : GoMap String
  Spec : TemplateSpec
deriving DecidableEq, Repr

/-- Modelled from the spec: `v3.TemplateContent`. -/
structure TemplateContent where
  Name : String
  Data : String
deriving DecidableEq, Repr

/-- Modelled from the spec: `v3.VersionCommits`. -/
structure VersionCommits where
  Value : GoMap String
deriving DecidableEq, Repr

/-- Modelled from the spec: `v3.CatalogStatus`; `Conditions` sends a condition type to its status. -/
structure CatalogStatus where
  Conditions : GoMap String
  Commit : String
  HelmVersionCommits : GoMap VersionCommits
deriving DecidableEq, Repr

/-- Modelled from the spec: `v3.Catalog`. -/
structure Catalog where
  Name : String
  Status : CatalogStatus
deriving DecidableEq, Repr

/-- Modelled from the spec: `v3.CatalogConditionRefreshed.True(catalog)` marks the
catalog's refreshed condition true. -/
def CatalogConditionRefreshed_True (catalog : Catalog) : Catalog :=
  { catalog with
    Status := { catalog.Status with
      Conditions := mapSet catalog.Status.Conditions "Refreshed" "True" } }

def CatalogNameLabel : String := "catalog.cattle.io/name"

def TemplateNameLabel : String := "catalog.cattle.io/template_name"

/-! ## Clients, runtime and state -/

/-- A call issued to one of the four persistence clients. -/
inductive Call where
  | TemplateVersionList (selector : String)
  | TemplateVersionCreate (tv : TemplateVersion)
  | TemplateVersionUpdate (tv : TemplateVersion)
  | TemplateVersionDelete (name : String)
  | TemplateList (selector : String)
  | TemplateCreate (t : Template)
  | TemplateUpdate (t : Template)
  | TemplateDelete (name : String)
  | TemplateContentList
  | TemplateContentCreate (tc : TemplateContent)
  | CatalogUpdate (c : Catalog)
deriving DecidableEq, Repr

/-- The clients held by `Manager`. Each answer is a function of the calls issued
before this one and of the argument. -/
structure Manager where
  templateVersionList : List Call → String → Except Err (List TemplateVersion)
  templateVersionCreate : List Call → TemplateVersion → Except Err TemplateVersion
  templateVersionUpdate : List Call → TemplateVersion → Except Err TemplateVersion
  templateVersionDelete : List Call → String → Option Err
  templateList : List Call → String → Except Err (List Template)
  templateCreate : List Call → Template → Except Err Template
  templateUpdate : List Call → Template → Except Err Template
  templateDelete : List Call → String → Option Err
  templateContentList : List Call → Except Err (List TemplateContent)
  templateContentCreate : List Call → TemplateContent → Except Err TemplateContent
  catalogUpdate : List Call → Catalog → Except Err Catalog

/-- The library functions used by `zipAndHash`. `gzip` is the write of the content
through a `gzip.Writer` into a buffer, the only step that returns an error. -/
structure Codec where
  gzip : String → Except Err (List Nat)
  sha256 : List Nat → List Nat
  hex : List Nat → String
  base64 : List Nat → String

/-- The iteration order of `range` over a map: some permutation of the entries. -/
structure Runtime where
  rangeOrder : {α : Type} → List α → List α
  rangeOrder_perm : ∀ {α : Type} (l : List α), List.Perm (rangeOrder l) l

/-- All that the code runs against. -/
structure Env where
  m : Manager
  codec : Codec
  rt : Runtime

/-- The state threaded through a sync pass: the client calls issued so far, oldest
first, and the shared set of known content tags (`tagMap`). -/
structure St where
  log : List Call
  tagMap : List String
deriving DecidableEq, Repr

/-- The state after one more client call. -/
def St.call (s : St) (c : Call) : St := { s with log := s.log ++ [c] }

/-! ## The content store -/

/-- The function `zipAndHash`: the tag and the encoded payload of a content. -/
def zipAndHash (cd : Codec) (content : String) : Except Err (String × String) :=
  match cd.gzip content with
  | .error err => .error err
  | .ok compressedData =>
    .ok (cd.hex (cd.sha256 compressedData), cd.base64 compressedData)

/-- The error standing for the panic of an assignment into a nil map. -/
def nilMapPanic : Err := { reason := Reason.Panic, msg := "assignment to entry in nil map" }

/-- The block `if _, ok := tagMap[tag]; !ok { ... }`, written out once in `convertFile`
and once in `convertTemplateIcon`: a content whose tag is not known yet is created
and its tag recorded; a known tag costs no call. -/
def createIfUnknown (env : Env) (tag content : String) (s : St) : Option Err × St :=
  if tag ∈ s.tagMap then (none, s)
  else
    let templateContent : TemplateContent := { Name := tag, Data := content }
    match env.m.templateContentCreate s.log templateContent with
    | .error err => (some err, s.call (Call.TemplateContentCreate templateContent))
    | .ok _ =>
      (none, { log := s.log ++ [Call.TemplateContentCreate templateContent],
               tagMap := tag :: s.tagMap })

/-- One iteration of the loop of `convertFile`, on the entry `name, file`. -/
def convertFileEntry (env : Env) (spec : TemplateVersionSpec) (name file : String)
    (templateVersion : TemplateVersion) (s : St) : Except Err TemplateVersion × St :=
  match zipAndHash env.codec file with
  | .error err => (.error err, s)
  | .ok (tag, content) =>
    match createIfUnknown env tag content s with
    | (some err, s1) => (.error err, s1)
    | (none, s1) =>
      match templateVersion.Spec.Files with
      | none => (.error nilMapPanic, s1)
      | some files =>
        let tv1 : TemplateVersion :=
          { templateVersion with
            Spec := { templateVersion.Spec with Files := some (mapSet files name tag) } }
        let tv2 : TemplateVersion :=
          if file = spec.Readme then { tv1 with Spec := { tv1.Spec with Readme := tag } } else tv1
        let tv3 : TemplateVersion :=
          if file = spec.AppReadme then { tv2 with Spec := { tv2.Spec with AppReadme := tag } }
          else tv2
        (.ok tv3, s1)

/-- The loop of `convertFile` over the entries still to visit. -/
def convertFileLoop (env : Env) (spec : TemplateVersionSpec) :
    List (String × String) → TemplateVersion → St → Except Err TemplateVersion × St
  | [], templateVersion, s => (.ok templateVersion, s)
  | (name, file) :: rest, templateVersion, s =>
    match convertFileEntry env spec name file templateVersion s with
    | (.error err, s1) => (.error err, s1)
    | (.ok tv1, s1) => convertFileLoop env spec rest tv1 s1

/-- The method `Manager.convertFile`. The result carries the record as the loop left it. -/
def convertFile (env : Env) (templateVersion : TemplateVersion) (spec : TemplateVersionSpec)
    (s : St) : Except Err TemplateVersion × St :=
  match spec.Files with
  | none => (.ok templateVersion, s)
  | some files => convertFileLoop env spec (env.rt.rangeOrder files) templateVersion s

/-- The method `Manager.convertTemplateIcon`. -/
def convertTemplateIcon (env : Env) (template : Template) (s : St) :
    Except Err Template × St :=
  match zipAndHash env.codec template.Spec.Icon with
  | .error err => (.error err, s)
  | .ok (tag, content) =>
    match createIfUnknown env tag content s with
    | (some err, s1) => (.error err, s1)
    | (none, s1) => (.ok { template with Spec := { template.Spec with Icon := tag } }, s1)

/-! ## The version reconciler -/

/-- One iteration of the loop of `createTemplateVersions`, on the version `spec`. -/
def createTemplateVersion (env : Env) (template : Template) (spec : TemplateVersionSpec)
    (s : St) : Option Err × St :=
  let templateVersion : TemplateVersion :=
    { Name := template.Name ++ "-" ++ spec.Version,
      Labels := [(TemplateNameLabel, template.Name)],
      Spec := spec }
  match convertFile env templateVersion spec s with
  | (.error err, s1) => (some err, s1)
  | (.ok templateVersion, s1) =>
    let s2 := s1.call (Call.TemplateVersionCreate templateVersion)
    match env.m.templateVersionCreate s1.log templateVersion with
    | .error err => if !IsAlreadyExists err then (some err, s2) else (none, s2)
    | .ok _ => (none, s2)

/-- The method `Manager.createTemplateVersions`. -/
def createTemplateVersions (env : Env) :
    List TemplateVersionSpec → Template → St → Option Err × St
  | [], _, s => (none, s)
  | spec :: rest, template, s =>
    match createTemplateVersion env template spec s with
    | (some err, s1) => (some err, s1)
    | (none, s1) => createTemplateVersions env rest template s1

/-- The map `tvByVersion` of `updateTemplate`: the listed records keyed by version string. -/
def tvByVersionOf (items : List TemplateVersion) : GoMap TemplateVersion :=
  items.foldl (fun acc ver => mapSet acc ver.Spec.Version ver) []

/-- One iteration of the first loop of `updateTemplate`, on the desired version `toUpdateVer`. -/
def updateTemplateVersion (env : Env) (template : Template)
    (tvByVersion : GoMap TemplateVersion) (toUpdateVer : TemplateVersionSpec) (s : St) :
    Option Err × St :=
  let templateVersion : TemplateVersion := { Name := "", Labels := [], Spec := toUpdateVer }
  match convertFile env templateVersion toUpdateVer s with
  | (.error err, s1) => (some err, s1)
  | (.ok templateVersion, s1) =>
    match mapGet tvByVersion toUpdateVer.Version with
    | some tv =>
      if tv.Spec.Digest ≠ toUpdateVer.Digest then
        let tv1 : TemplateVersion := { tv with Spec := templateVersion.Spec }
        let s2 := s1.call (Call.TemplateVersionUpdate tv1)
        match env.m.templateVersionUpdate s1.log tv1 with
        | .error err => (some err, s2)
        | .ok _ => (none, s2)
      else (none, s1)
    | none =>
      let toCreate : TemplateVersion :=
        { Name := template.Name ++ "-" ++ toUpdateVer.Version,
          Labels := [(TemplateNameLabel, template.Name)],
          Spec := templateVersion.Spec }
      let s2 := s1.call (Call.TemplateVersionCreate toCreate)
      match env.m.templateVersionCreate s1.log toCreate with
      | .error err => (some err, s2)
      | .ok _ => (none, s2)

/-- The first loop of `updateTemplate`, over the desired versions. -/
def updateTemplateVersions (env : Env) (template : Template)
    (tvByVersion : GoMap TemplateVersion) :
    List TemplateVersionSpec → St → Option Err × St
  | [], s => (none, s)
  | toUpdateVer :: rest, s =>
    match updateTemplateVersion env template tvByVersion toUpdateVer s with
    | (some err, s1) => (some err, s1)
    | (none, s1) => updateTemplateVersions env template tvByVersion rest s1

/-- The second loop of `updateTemplate`: the existing records whose version string is
not among `toUpdateTvs` are deleted, a not-found answer being passed over. -/
def deleteStaleVersions (env : Env) (toUpdateTvs : List String) :
    List (String × TemplateVersion) → St → Option Err × St
  | [], s => (none, s)
  | (v, tv) :: rest, s =>
    if v ∉ toUpdateTvs then
      let s1 := s.call (Call.TemplateVersionDelete tv.Name)
      match env.m.templateVersionDelete s.log tv.Name with
      | some err =>
        if !IsNotFound err then (some err, s1) else deleteStaleVersions env toUpdateTvs rest s1
      | none => deleteStaleVersions env toUpdateTvs rest s1
    else deleteStaleVersions env toUpdateTvs rest s

/-- The payload of a version entry is dropped: `Files = nil`, `Readme = ""`, `AppReadme = ""`. -/
def stripVersion (v : TemplateVersionSpec) : TemplateVersionSpec :=
  { v with Files := none, Readme := "", AppReadme := "" }

/-- The method `Manager.updateTemplate`. -/
def updateTemplate (env : Env) (template : Template) (toUpdate : Template) (s : St) :
    Option Err × St :=
  let s1 := s.call (Call.TemplateVersionList (TemplateNameLabel ++ "=" ++ template.Name))
  match env.m.templateVersionList s.log (TemplateNameLabel ++ "=" ++ template.Name) with
  | .error err => (some (Wrapf err "failed to list templateVersions"), s1)
  | .ok items =>
    let tvByVersion := tvByVersionOf items
    match updateTemplateVersions env template tvByVersion toUpdate.Spec.Versions s1 with
    | (some err, s2) => (some err, s2)
    | (none, s2) =>
      let toUpdateTvs : List String := toUpdate.Spec.Versions.map (fun v => v.Version)
      match deleteStaleVersions env toUpdateTvs (env.rt.rangeOrder tvByVersion) s2 with
      | (some err, s3) => (some err, s3)
      | (none, s3) =>
        let template1 : Template :=
          { template with
            Spec := { toUpdate.Spec with Versions := toUpdate.Spec.Versions.map stripVersion } }
        match convertTemplateIcon env template1 s3 with
        | (.error err, s4) => (some err, s4)
        | (.ok template2, s4) =>
          let s5 := s4.call (Call.TemplateUpdate template2)
          match env.m.templateUpdate s4.log template2 with
          | .error err => (some err, s5)
          | .ok _ => (none, s5)

/-! ## The template reconciler -/

/-- The method `Manager.createTemplate`. -/
def createTemplate (env : Env) (template : Template) (catalog : Catalog) (s : St) :
    Option Err × St :=
  let versionFiles : List TemplateVersionSpec := template.Spec.Versions
  let template1 : Template :=
    { template with
      Labels := [(CatalogNameLabel, catalog.Name)],
      Spec := { template.Spec with Versions := template.Spec.Versions.map stripVersion } }
  match convertTemplateIcon env template1 s with
  | (.error err, s1) => (some err, s1)
  | (.ok template2, s1) =>
    let s2 := s1.call (Call.TemplateCreate template2)
    match env.m.templateCreate s1.log template2 with
    | .error err => (some (Wrapf err ("failed to create template " ++ template2.Name)), s2)
    | .ok createdTemplate => createTemplateVersions env versionFiles createdTemplate s2

/-- The method `Manager.getTemplateMap`. -/
def getTemplateMap (env : Env) (catalogName : String) (s : St) :
    Except Err (GoMap Template) × St :=
  let s1 := s.call (Call.TemplateList (CatalogNameLabel ++ "=" ++ catalogName))
  match env.m.templateList s.log (CatalogNameLabel ++ "=" ++ catalogName) with
  | .error err => (.error err, s1)
  | .ok items => (.ok (items.foldl (fun acc t => mapSet acc t.Name t) []), s1)

/-- The method `Manager.getTemplateVersion`: the set of the names of the listed records. -/
def getTemplateVersion (env : Env) (templateName : String) (s : St) :
    Except Err (GoMap Unit) × St :=
  let s1 := s.call (Call.TemplateVersionList (TemplateNameLabel ++ "=" ++ templateName))
  match env.m.templateVersionList s.log (TemplateNameLabel ++ "=" ++ templateName) with
  | .error err => (.error err, s1)
  | .ok items => (.ok (items.foldl (fun acc ver => mapSet acc ver.Name ()) []), s1)

/-! ## The sync orchestrator -/

/-- The inner loop of the delete phase of `update`: the listed children are deleted,
a not-found answer being passed over. -/
def deleteTemplateVersions (env : Env) : List String → St → Option Err × St
  | [], s => (none, s)
  | tv :: rest, s =>
    let s1 := s.call (Call.TemplateVersionDelete tv)
    match env.m.templateVersionDelete s.log tv with
    | some err =>
      if !IsNotFound err then (some err, s1) else deleteTemplateVersions env rest s1
    | none => deleteTemplateVersions env rest s1

/-- One iteration of the delete phase of `update`, on the template name `toDelete`. -/
def deleteTemplate (env : Env) (toDelete : String) (s : St) : Option Err × St :=
  match getTemplateVersion env toDelete s with
  | (.error err, s1) => (some err, s1)
  | (.ok toDeleteTvs, s1) =>
    match deleteTemplateVersions env (env.rt.rangeOrder (mapKeys toDeleteTvs)) s1 with
    | (some err, s2) => (some err, s2)
    | (none, s2) =>
      let s3 := s2.call (Call.TemplateDelete toDelete)
      match env.m.templateDelete s2.log toDelete with
      | some err => if !IsNotFound err then (some err, s3) else (none, s3)
      | none => (none, s3)

/-- The delete phase of `update`. -/
def deleteTemplates (env : Env) : List String → St → Option Err × St
  | [], s => (none, s)
  | toDelete :: rest, s =>
    match deleteTemplate env toDelete s with
    | (some err, s1) => (some err, s1)
    | (none, s1) => deleteTemplates env rest s1

/-- The dispatch inside the reconcile loop of `update`: the value left in `temErr`. -/
def reconcileTemplate (env : Env) (catalog : Catalog) (templateMap : GoMap Template)
    (template : Template) (s : St) : Option Err × St :=
  match mapGet templateMap template.Name with
  | some existing => updateTemplate env existing template s
  | none => createTemplate env template catalog s

/-- What the reconcile loop of `update` carries: the state, the version-commit map
being assembled and the errors collected. -/
structure Pass where
  st : St
  versionCommits : GoMap VersionCommits
  errs : List Err
deriving DecidableEq, Repr

/-- One iteration of the reconcile loop of `update`. -/
def reconcileStep (env : Env) (catalog : Catalog) (templateMap : GoMap Template)
    (p : Pass) (template : Template) : Pass :=
  match reconcileTemplate env catalog templateMap template p.st with
  | (some temErr, s1) =>
    { st := s1,
      versionCommits := mapDelete p.versionCommits template.Spec.DisplayName,
      errs := p.errs ++ [temErr] }
  | (none, s1) => { p with st := s1 }

/-- The reconcile loop of `update`. -/
def reconcileTemplates (env : Env) (catalog : Catalog) (templateMap : GoMap Template)
    (templates : List Template) (p : Pass) : Pass :=
  templates.foldl (reconcileStep env catalog templateMap) p

/-- What `update` leaves behind: the returned error, the state, and the catalog and
the version-commit map as the caller sees them afterwards. -/
structure UpdateResult where
  err : Option Err
  st : St
  catalog : Catalog
  versionCommits : GoMap VersionCommits
deriving DecidableEq, Repr

/-- The commit phase of `update`, from the end of the reconcile loop on. -/
def commitCatalog (env : Env) (catalog : Catalog) (commit : String) (p : Pass) :
    UpdateResult :=
  let catalog1 : Catalog :=
    { catalog with Status := { catalog.Status with HelmVersionCommits := p.versionCommits } }
  if p.errs.length > 0 then
    let s1 := p.st.call (Call.CatalogUpdate catalog1)
    match env.m.catalogUpdate p.st.log catalog1 with
    | .error err =>
      { err := some err, st := s1, catalog := catalog1, versionCommits := p.versionCommits }
    | .ok _ =>
      { err := some (Errorf p.errs), st := s1, catalog := catalog1,
        versionCommits := p.versionCommits }
  else
    let catalog2 := CatalogConditionRefreshed_True catalog1
    let catalog3 : Catalog := { catalog2 with Status := { catalog2.Status with Commit := commit } }
    let s1 := p.st.call (Call.CatalogUpdate catalog3)
    match env.m.catalogUpdate p.st.log catalog3 with
    | .error err =>
      { err := some err, st := s1, catalog := catalog3, versionCommits := p.versionCommits }
    | .ok _ =>
      { err := none, st := s1, catalog := catalog3, versionCommits := p.versionCommits }

/-- The load phase of `update`: the existing templates by name and the known tags. -/
def loadExisting (env : Env) (catalog : Catalog) (s : St) : Except Err (GoMap Template) × St :=
  match getTemplateMap env catalog.Name s with
  | (.error err, s1) => (.error err, s1)
  | (.ok templateMap, s1) =>
    let s2 := s1.call Call.TemplateContentList
    match env.m.templateContentList s1.log with
    | .error err => (.error err, s2)
    | .ok items => (.ok templateMap, { s2 with tagMap := items.map (fun t => t.Name) })

/-- The method `Manager.update`, run after the calls of `log`. -/
def update (env : Env) (catalog : Catalog) (templates : List Template)
    (toDeleteTemplate : List String) (versionCommits : GoMap VersionCommits)
    (commit : String) (log : List Call) : UpdateResult :=
  match deleteTemplates env toDeleteTemplate { log := log, tagMap := [] } with
  | (some err, s1) =>
    { err := some err, st := s1, catalog := catalog, versionCommits := versionCommits }
  | (none, s1) =>
    match loadExisting env catalog s1 with
    | (.error err, s2) =>
      { err := some err, st := s2, catalog := catalog, versionCommits := versionCommits }
    | (.ok templateMap, s2) =>
      commitCatalog env catalog commit
        (reconcileTemplates env catalog templateMap templates
          { st := s2, versionCommits := versionCommits, errs := [] })

/-! ## Vocabulary of the statements -/

/-- A create of a TemplateContent record. -/
def Call.isContentCreate : Call → Bool
  | Call.TemplateContentCreate _ => true
  | _ => false

/-- A write to the TemplateVersion store: a create, an update or a delete. -/
def Call.isTemplateVersionWrite : Call → Bool
  | Call.TemplateVersionCreate _ => true
  | Call.TemplateVersionUpdate _ => true
  | Call.TemplateVersionDelete _ => true
  | _ => false

/-- A delete of a TemplateVersion record. -/
def Call.isTemplateVersionDelete : Call → Bool
  | Call.TemplateVersionDelete _ => true
  | _ => false

/-- A persist of the Catalog. -/
def Call.isCatalogUpdate : Call → Bool
  | Call.CatalogUpdate _ => true
  | _ => false

/-- From `s` to `t` the log grew by calls that all satisfy `P`, and no known tag was lost. -/
def Grows (P : Call → Prop) (s t : St) : Prop :=
  (∃ ext, t.log = s.log ++ ext ∧ ∀ c ∈ ext, P c) ∧ ∀ tag ∈ s.tagMap, tag ∈ t.tagMap

/-- Every version entry of the record is stripped of its payload. -/
def Stripped (t : Template) : Prop :=
  ∀ v ∈ t.Spec.Versions, v.Files = none ∧ v.Readme = "" ∧ v.AppReadme = ""

/-! ## A small concrete environment -/

/-- Stores that accept every call and list nothing. -/
def emptyStores : Manager :=
  { templateVersionList := fun _ _ => .ok []
    templateVersionCreate := fun _ tv => .ok tv
    templateVersionUpdate := fun _ tv => .ok tv
    templateVersionDelete := fun _ _ => none
    templateList := fun _ _ => .ok []
    templateCreate := fun _ t => .ok t
    templateUpdate := fun _ t => .ok t
    templateDelete := fun _ _ => none
    templateContentList := fun _ => .ok []
    templateContentCreate := fun _ tc => .ok tc
    catalogUpdate := fun _ c => .ok c }

/-- A stand-in codec: the tag of a content is the content behind `#`. -/
def plainCodec : Codec :=
  { gzip := fun c => .ok (c.toList.map Char.toNat)
    sha256 := fun b => b
    hex := fun b => "#" ++ String.mk (b.map Char.ofNat)
    base64 := fun b => "=" ++ String.mk (b.map Char.ofNat) }

/-- The runtime that ranges over a map in the order of its entries. -/
def inOrder : Runtime :=
  { rangeOrder := fun l => l, rangeOrder_perm := fun l => List.Perm.refl l }

/-- The environment of `emptyStores`, `plainCodec` and `inOrder`. -/
def plainEnv : Env := { m := emptyStores, codec := plainCodec, rt := inOrder }

/-- A version with one file and a readme that is the content of none of its files. -/
def notesVersion : TemplateVersionSpec :=
  { Version := "1.0", Digest := "d1", Files := some [("a", "hello")],
    Readme := "notes", AppReadme := "" }

/-- A version whose readme is the content of its one file. -/
def helloVersion : TemplateVersionSpec :=
  { Version := "1.0", Digest := "d1", Files := some [("a", "hello")],
    Readme := "hello", AppReadme := "" }

/-- A stored record of version `1.0` under the digest `d0`. -/
def storedVersion : TemplateVersion :=
  { Name := "T1-1.0", Labels := [(TemplateNameLabel, "T1")],
    Spec := { Version := "1.0", Digest := "d0", Files := some [("a", "#old")],
              Readme := "", AppReadme := "" } }

/-- A template of one version. -/
def helloTemplate : Template :=
  { Name := "T1", Labels := [],
    Spec := { DisplayName := "T1", Icon := "ico", Versions := [helloVersion] } }

/-- The state before any call. -/
def emptySt : St := { log := [], tagMap := [] }

/-- The calls `createTemplate` can issue: creates of contents and of versions, and
the Create of a template record whose version entries are stripped. -/
def Call.inCreateTemplate : Call → Prop
  | Call.TemplateContentCreate _ => True
  | Call.TemplateVersionCreate _ => True
  | Call.TemplateCreate t => Stripped t
  | _ => False

/-- The calls `updateTemplate` can issue: the listing of the versions, creates of
contents, writes of versions, and the Update of a template record whose version
entries are stripped. -/
def Call.inUpdateTemplate : Call → Prop
  | Call.TemplateVersionList _ => True
  | Call.TemplateContentCreate _ => True
  | Call.TemplateVersionCreate _ => True
  | Call.TemplateVersionUpdate _ => True
  | Call.TemplateVersionDelete _ => True
  | Call.TemplateUpdate t => Stripped t
  | _ => False

/-- The answer of a store that holds the record already. -/
def alreadyExists : Err := { reason := Reason.AlreadyExists, msg := "already exists" }

/-- Stores in which every TemplateContent create meets an existing record. -/
def contentConflictEnv : Env :=
  { plainEnv with
    m := { emptyStores with templateContentCreate := fun _ _ => .error alreadyExists } }

/-- Stores in which every TemplateVersion create meets an existing record. -/
def versionConflictEnv : Env :=
  { plainEnv with
    m := { emptyStores with templateVersionCreate := fun _ _ => .error alreadyExists } }

/-- The calls the delete phase of `update` can issue. -/
def Call.inDeletePhase : Call → Prop
  | Call.TemplateVersionList _ => True
  | Call.TemplateVersionDelete _ => True
  | Call.TemplateDelete _ => True
  | _ => False

/-- The answer of a store that does not hold the record. -/
def notFound : Err := { reason := Reason.NotFound, msg := "not found" }

/-- Stores that list the version `T1-1.0` under every template and answer every
delete with "not found". -/
def missingEnv : Env :=
  { plainEnv with
    m := { emptyStores with
      templateVersionList := fun _ _ => .ok [storedVersion]
      templateVersionDelete := fun _ _ => some notFound
      templateDelete := fun _ _ => some notFound } }

/-- A stored record of version `0.9`, a version the desired template no longer has. -/
def staleVersion : TemplateVersion :=
  { Name := "T1-0.9", Labels := [(TemplateNameLabel, "T1")],
    Spec := { Version := "0.9", Digest := "d9", Files := some [("a", "#old")],
              Readme := "", AppReadme := "" } }

/-- Stores that list the versions `1.0` and `0.9` under every template. -/
def staleEnv : Env :=
  { plainEnv with
    m := { emptyStores with
      templateVersionList := fun _ _ => .ok [storedVersion, staleVersion] } }

/-- The outcome of reconciling `template` at its turn in the reconcile loop of `update`,
started from `p` and run over the templates `pre` before it. -/
def outcomeAt (env : Env) (catalog : Catalog) (templateMap : GoMap Template) (p : Pass)
    (pre : List Template) (template : Template) : Option Err × St :=
  reconcileTemplate env catalog templateMap template
    (reconcileTemplates env catalog templateMap pre p).st

/-- A catalog not yet refreshed, at the commit `c0`. -/
def demoCatalog : Catalog :=
  { Name := "c", Status := { Conditions := [], Commit := "c0", HelmVersionCommits := [] } }

/-- A second template, of no version. -/
def otherTemplate : Template :=
  { Name := "T2", Labels := [], Spec := { DisplayName := "T2", Icon := "ico2", Versions := [] } }

/-- The version-commit map of the two templates. -/
def demoCommits : GoMap VersionCommits :=
  [("T1", { Value := [("1.0", "x")] }), ("T2", { Value := [] })]

/-- An error of the store. -/
def storeDown : Err := { reason := Reason.Unknown, msg := "store down" }

/-- Stores that refuse the create of the template `T1` and accept every other call. -/
def refusingEnv : Env :=
  { plainEnv with
    m := { emptyStores with
      templateCreate := fun _ t => if t.Name = "T1" then .error storeDown else .ok t } }

/-- A TemplateVersion Update, if `c` is one, is of a record of `tvByVersion` matched by
a desired version of `versions` whose digest differs from the stored one, and carries
the desired version string and digest. -/
def Call.gatedUpdate (tvByVersion : GoMap TemplateVersion) (versions : List TemplateVersionSpec)
    (c : Call) : Prop :=
  ∀ r, c = Call.TemplateVersionUpdate r →
    ∃ tv v, v ∈ versions ∧ mapGet tvByVersion v.Version = some tv ∧
      tv.Spec.Digest ≠ v.Digest ∧ r.Name = tv.Name ∧ r.Labels = tv.Labels ∧
      r.Spec.Version = v.Version ∧ r.Spec.Digest = v.Digest

/-- A version `0.9` with one file, of content `bad`. -/
def badVersion : TemplateVersionSpec :=
  { Version := "0.9", Digest := "d9", Files := some [("a", "bad")], Readme := "", AppReadme := "" }

/-- The template `T1` with the versions `0.9` and `1.0`, in this order. -/
def twoVersionTemplate : Template :=
  { Name := "T1", Labels := [],
    Spec := { DisplayName := "T1", Icon := "ico", Versions := [badVersion, helloVersion] } }

/-- Stores that list the version `1.0` under every template and refuse the create of
the content of tag `#bad`. -/
def badContentEnv : Env :=
  { plainEnv with
    m := { emptyStores with
      templateVersionList := fun _ _ => .ok [storedVersion]
      templateContentCreate := fun _ tc =>
        if tc.Name = "#bad" then .error storeDown else .ok tc } }

/-- Stores that list the version `1.0` under every template and accept every call. -/
def storedEnv : Env :=
  { plainEnv with
    m := { emptyStores with templateVersionList := fun _ _ => .ok [storedVersion] } }

/-! ## Growth of the log and of the known tags -/

theorem Grows.refl (P : Call → Prop) (s : St) : Grows P s s :=
  ⟨⟨[], by simp, by simp⟩, fun _ h => h⟩

theorem Grows.trans {P : Call → Prop} {s t u : St} (h1 : Grows P s t) (h2 : Grows P t u) :
    Grows P s u := by
  obtain ⟨⟨e1, hl1, hp1⟩, ht1⟩ := h1
  obtain ⟨⟨e2, hl2, hp2⟩, ht2⟩ := h2
  refine ⟨⟨e1 ++ e2, by rw [hl2, hl1, List.append_assoc], ?_⟩, fun t ht => ht2 t (ht1 t ht)⟩
  intro c hc
  rcases List.mem_append.mp hc with h | h
  · exact hp1 c h
  · exact hp2 c h

theorem Grows.mono {P Q : Call → Prop} {s t : St} (hPQ : ∀ c, P c → Q c) (h : Grows P s t) :
    Grows Q s t := by
  obtain ⟨⟨e, hl, hp⟩, ht⟩ := h
  exact ⟨⟨e, hl, fun c hc => hPQ c (hp c hc)⟩, ht⟩

theorem Grows.call {P : Call → Prop} (s : St) (c : Call) (hc : P c) : Grows P s (s.call c) :=
  ⟨⟨[c], rfl, by simpa using hc⟩, fun _ h => h⟩

theorem Grows.callTag {P : Call → Prop} (s : St) (c : Call) (tag : String) (hc : P c) :
    Grows P s { log := s.log ++ [c], tagMap := tag :: s.tagMap } :=
  ⟨⟨[c], rfl, by simpa using hc⟩, fun _ h => List.mem_cons_of_mem _ h⟩

theorem createIfUnknown_grows (env : Env) (tag content : String) (s : St) :
    Grows (fun c => c.isContentCreate = true) s (createIfUnknown env tag content s).2 := by
  unfold createIfUnknown
  split
  · exact Grows.refl _ _
  · dsimp only
    split
    · exact Grows.call _ _ rfl
    · exact Grows.callTag _ _ _ rfl

theorem createIfUnknown_ok (env : Env) (tag content : String) (s s1 : St)
    (h : createIfUnknown env tag content s = (none, s1)) : tag ∈ s1.tagMap := by
  unfold createIfUnknown at h
  split at h
  · cases h; assumption
  · dsimp only at h
    split at h
    · cases h
    · cases h; simp

theorem convertFileEntry_grows (env : Env) (spec : TemplateVersionSpec) (name file : String)
    (tv : TemplateVersion) (s : St) :
    Grows (fun c => c.isContentCreate = true) s (convertFileEntry env spec name file tv s).2 := by
  have h := createIfUnknown_grows env
  unfold convertFileEntry
  split
  · exact Grows.refl _ _
  · rename_i tag content _
    have h1 := h tag content s
    split
    · rename_i hc; rw [hc] at h1; exact h1
    · rename_i hc; rw [hc] at h1
      split <;> exact h1

theorem convertFileLoop_grows (env : Env) (spec : TemplateVersionSpec)
    (l : List (String × String)) (tv : TemplateVersion) (s : St) :
    Grows (fun c => c.isContentCreate = true) s (convertFileLoop env spec l tv s).2 := by
  induction l generalizing tv s with
  | nil => exact Grows.refl _ _
  | cons e rest ih =>
    obtain ⟨name, file⟩ := e
    have h1 := convertFileEntry_grows env spec name file tv s
    unfold convertFileLoop
    split
    · rename_i hc; rw [hc] at h1; exact h1
    · rename_i tv1 s1 hc; rw [hc] at h1
      exact h1.trans (ih tv1 s1)

theorem convertFile_grows (env : Env) (tv : TemplateVersion) (spec : TemplateVersionSpec)
    (s : St) : Grows (fun c => c.isContentCreate = true) s (convertFile env tv spec s).2 := by
  unfold convertFile
  split
  · exact Grows.refl _ _
  · exact convertFileLoop_grows _ _ _ _ _

theorem convertTemplateIcon_grows (env : Env) (t : Template) (s : St) :
    Grows (fun c => c.isContentCreate = true) s (convertTemplateIcon env t s).2 := by
  unfold convertTemplateIcon
  split
  · exact Grows.refl _ _
  · rename_i tag content _
    have h1 := createIfUnknown_grows env tag content s
    split
    · rename_i hc; rw [hc] at h1; exact h1
    · rename_i hc; rw [hc] at h1; exact h1

/-! ## What `convertFile` leaves on success -/

theorem mem_mapSet {V : Type} (m : GoMap V) (k : String) (v : V) (e : String × V)
    (h : e ∈ mapSet m k v) : (e.1 = k ∧ e.2 = v) ∨ (e.1 ≠ k ∧ e ∈ m) := by
  unfold mapSet at h
  split at h
  · obtain ⟨a, ha, rfl⟩ := List.mem_map.mp h
    by_cases hk : a.1 = k
    · left; simp [hk]
    · right; simp [hk, ha]
  · rename_i hk
    rcases List.mem_append.mp h with h1 | h1
    · right
      refine ⟨?_, h1⟩
      intro he
      exact hk (he ▸ List.mem_map_of_mem Prod.fst h1)
    · left
      simp at h1
      simp [h1]

/-- What a successful iteration of the loop of `convertFile` leaves. -/
theorem convertFileEntry_ok (env : Env) (spec : TemplateVersionSpec) (name file : String)
    (tv tv1 : TemplateVersion) (s s1 : St)
    (h : convertFileEntry env spec name file tv s = (.ok tv1, s1)) :
    ∃ tag content files, zipAndHash env.codec file = .ok (tag, content) ∧ tag ∈ s1.tagMap ∧
      tv.Spec.Files = some files ∧
      tv1 = { tv with Spec := { tv.Spec with
                Files := some (mapSet files name tag),
                Readme := if file = spec.Readme then tag else tv.Spec.Readme,
                AppReadme := if file = spec.AppReadme then tag else tv.Spec.AppReadme } } := by
  unfold convertFileEntry at h
  split at h
  · cases h
  · rename_i tag content hz
    split at h
    · cases h
    · rename_i s2 hc
      split at h
      · cases h
      · rename_i files hf
        refine ⟨tag, content, files, hz, ?_, hf, ?_⟩
        · have := createIfUnknown_ok env tag content s s2 hc
          cases h; exact this
        · simp only [Prod.mk.injEq, Except.ok.injEq] at h
          rw [← h.1]
          split_ifs <;> rfl

theorem convertFileLoop_cons_ok (env : Env) (spec : TemplateVersionSpec) (name file : String)
    (rest : List (String × String)) (tv tv2 : TemplateVersion) (s s2 : St)
    (h : convertFileLoop env spec ((name, file) :: rest) tv s = (.ok tv2, s2)) :
    ∃ tv1 s1, convertFileEntry env spec name file tv s = (.ok tv1, s1) ∧
      convertFileLoop env spec rest tv1 s1 = (.ok tv2, s2) := by
  unfold convertFileLoop at h
  split at h
  · cases h
  · rename_i tv1 s1 hc
    exact ⟨tv1, s1, hc, h⟩

/-- A successful run of the loop of `convertFile`: the tag of every visited file is
known afterwards, every entry of the record's map under a visited name holds the known
tag of a visited file of that name, the other entries are untouched, and the record
keeps its identity. -/
theorem convertFileLoop_ok (env : Env) (spec : TemplateVersionSpec)
    (l : List (String × String)) (tv tv2 : TemplateVersion) (s s2 : St)
    (h : convertFileLoop env spec l tv s = (.ok tv2, s2)) :
    tv2.Name = tv.Name ∧ tv2.Labels = tv.Labels ∧ tv2.Spec.Version = tv.Spec.Version ∧
    tv2.Spec.Digest = tv.Spec.Digest ∧
    (∀ e ∈ l, ∃ tag content, zipAndHash env.codec e.2 = .ok (tag, content) ∧ tag ∈ s2.tagMap) ∧
    (∀ fs, tv.Spec.Files = some fs → ∃ fs2, tv2.Spec.Files = some fs2 ∧
      ∀ e ∈ fs2,
        (e.1 ∈ l.map Prod.fst → e.2 ∈ s2.tagMap ∧
          ∃ e0 ∈ l, e0.1 = e.1 ∧ ∃ content, zipAndHash env.codec e0.2 = .ok (e.2, content)) ∧
        (e.1 ∉ l.map Prod.fst → e ∈ fs)) := by
  induction l generalizing tv s with
  | nil =>
    unfold convertFileLoop at h
    cases h
    refine ⟨rfl, rfl, rfl, rfl, by simp, ?_⟩
    intro fs hfs
    exact ⟨fs, hfs, fun e he => ⟨by simp, fun _ => he⟩⟩
  | cons x rest ih =>
    obtain ⟨name, file⟩ := x
    obtain ⟨tv1, s1, h1, h2⟩ := convertFileLoop_cons_ok env spec name file rest tv tv2 s s2 h
    obtain ⟨tag, content, files, hz, htag, hfiles, htv1⟩ :=
      convertFileEntry_ok env spec name file tv tv1 s s1 h1
    obtain ⟨hn, hl, hv, hd, hint, hf⟩ := ih tv1 s1 h2
    have hg : Grows (fun c => c.isContentCreate = true) s1 s2 := by
      have := convertFileLoop_grows env spec rest tv1 s1
      rw [h2] at this; exact this
    have htag2 : tag ∈ s2.tagMap := hg.2 tag htag
    subst htv1
    refine ⟨hn, hl, hv, hd, ?_, ?_⟩
    · intro e he
      rcases List.mem_cons.mp he with rfl | he
      · exact ⟨tag, content, hz, htag2⟩
      · exact hint e he
    · intro fs hfs
      rw [hfiles] at hfs
      cases hfs
      obtain ⟨fs2, hfs2, hall⟩ := hf (mapSet files name tag) rfl
      refine ⟨fs2, hfs2, ?_⟩
      intro e he
      obtain ⟨ha, hb⟩ := hall e he
      by_cases hr : e.1 ∈ rest.map Prod.fst
      · refine ⟨fun _ => ?_, fun hne => ?_⟩
        · obtain ⟨hmem, e0, he0, hk0, hz0⟩ := ha hr
          exact ⟨hmem, e0, List.mem_cons_of_mem _ he0, hk0, hz0⟩
        · exact absurd (List.mem_cons_of_mem _ hr) (by simpa using hne)
      · rcases mem_mapSet files name tag e (hb hr) with ⟨hk, hv2⟩ | ⟨hk, hm⟩
        · refine ⟨fun _ => ⟨hv2 ▸ htag2, (name, file), List.mem_cons_self _ _, hk.symm,
            content, hv2 ▸ hz⟩, fun hne => ?_⟩
          exact absurd (by simp [hk]) hne
        · refine ⟨fun hin => ?_, fun _ => hm⟩
          simp only [List.map_cons, List.mem_cons] at hin
          rcases hin with hin | hin
          · exact absurd hin hk
          · exact absurd hin hr

/-- The readme of a successful run of the loop of `convertFile`: left alone when no
visited file has the spec's readme as content, the tag of that content otherwise. -/
theorem convertFileLoop_readme (env : Env) (spec : TemplateVersionSpec)
    (l : List (String × String)) (tv tv2 : TemplateVersion) (s s2 : St)
    (h : convertFileLoop env spec l tv s = (.ok tv2, s2)) :
    ((∀ e ∈ l, e.2 ≠ spec.Readme) → tv2.Spec.Readme = tv.Spec.Readme) ∧
    (∀ e ∈ l, e.2 = spec.Readme → ∃ tag content,
      zipAndHash env.codec spec.Readme = .ok (tag, content) ∧ tv2.Spec.Readme = tag) := by
  induction l generalizing tv s with
  | nil =>
    unfold convertFileLoop at h
    cases h
    simp
  | cons x rest ih =>
    obtain ⟨name, file⟩ := x
    obtain ⟨tv1, s1, h1, h2⟩ := convertFileLoop_cons_ok env spec name file rest tv tv2 s s2 h
    obtain ⟨tag, content, files, hz, -, -, htv1⟩ :=
      convertFileEntry_ok env spec name file tv tv1 s s1 h1
    obtain ⟨ihA, ihB⟩ := ih tv1 s1 h2
    subst htv1
    constructor
    · intro hne
      have h0 : file ≠ spec.Readme := hne (name, file) (List.mem_cons_self _ _)
      rw [ihA (fun e he => hne e (List.mem_cons_of_mem _ he))]
      simp [h0]
    · intro e he heq
      by_cases hr : ∃ e1 ∈ rest, e1.2 = spec.Readme
      · obtain ⟨e1, he1, heq1⟩ := hr
        exact ihB e1 he1 heq1
      · have hr2 : ∀ e1 ∈ rest, e1.2 ≠ spec.Readme := fun e1 he1 hq => hr ⟨e1, he1, hq⟩
        rcases List.mem_cons.mp he with rfl | he
        · simp only at heq
          refine ⟨tag, content, heq ▸ hz, ?_⟩
          rw [ihA hr2]
          simp [heq]
        · exact absurd heq (hr2 e he)

/-- The app-readme of a successful run of the loop of `convertFile`. -/
theorem convertFileLoop_appReadme (env : Env) (spec : TemplateVersionSpec)
    (l : List (String × String)) (tv tv2 : TemplateVersion) (s s2 : St)
    (h : convertFileLoop env spec l tv s = (.ok tv2, s2)) :
    ((∀ e ∈ l, e.2 ≠ spec.AppReadme) → tv2.Spec.AppReadme = tv.Spec.AppReadme) ∧
    (∀ e ∈ l, e.2 = spec.AppReadme → ∃ tag content,
      zipAndHash env.codec spec.AppReadme = .ok (tag, content) ∧ tv2.Spec.AppReadme = tag) := by
  induction l generalizing tv s with
  | nil =>
    unfold convertFileLoop at h
    cases h
    simp
  | cons x rest ih =>
    obtain ⟨name, file⟩ := x
    obtain ⟨tv1, s1, h1, h2⟩ := convertFileLoop_cons_ok env spec name file rest tv tv2 s s2 h
    obtain ⟨tag, content, files, hz, -, -, htv1⟩ :=
      convertFileEntry_ok env spec name file tv tv1 s s1 h1
    obtain ⟨ihA, ihB⟩ := ih tv1 s1 h2
    subst htv1
    constructor
    · intro hne
      have h0 : file ≠ spec.AppReadme := hne (name, file) (List.mem_cons_self _ _)
      rw [ihA (fun e he => hne e (List.mem_cons_of_mem _ he))]
      simp [h0]
    · intro e he heq
      by_cases hr : ∃ e1 ∈ rest, e1.2 = spec.AppReadme
      · obtain ⟨e1, he1, heq1⟩ := hr
        exact ihB e1 he1 heq1
      · have hr2 : ∀ e1 ∈ rest, e1.2 ≠ spec.AppReadme := fun e1 he1 hq => hr ⟨e1, he1, hq⟩
        rcases List.mem_cons.mp he with rfl | he
        · simp only at heq
          refine ⟨tag, content, heq ▸ hz, ?_⟩
          rw [ihA hr2]
          simp [heq]
        · exact absurd heq (hr2 e he)

/-! ## References of a converted version (C4) -/

/-- A successful `convertFile` on a record built from `spec`: the record keeps its
identity, the tag of every file of `spec` is known, and every value of the record's
map is the known tag of a file of `spec` of the same name. -/
theorem convertFile_ok (env : Env) (tv tv2 : TemplateVersion) (spec : TemplateVersionSpec)
    (s s2 : St) (hbuilt : tv.Spec = spec) (h : convertFile env tv spec s = (.ok tv2, s2)) :
    tv2.Name = tv.Name ∧ tv2.Labels = tv.Labels ∧ tv2.Spec.Version = spec.Version ∧
    tv2.Spec.Digest = spec.Digest ∧
    (∀ files, spec.Files = some files → ∀ e ∈ files,
      ∃ tag content, zipAndHash env.codec e.2 = .ok (tag, content) ∧ tag ∈ s2.tagMap) ∧
    (∀ files, tv2.Spec.Files = some files → ∀ e ∈ files, e.2 ∈ s2.tagMap ∧
      ∃ files0 e0, spec.Files = some files0 ∧ e0 ∈ files0 ∧ e0.1 = e.1 ∧
        ∃ content, zipAndHash env.codec e0.2 = .ok (e.2, content)) := by
  subst hbuilt
  unfold convertFile at h
  split at h
  · rename_i hnone
    cases h
    refine ⟨rfl, rfl, rfl, rfl, ?_, ?_⟩
    · intro files hf; rw [hnone] at hf; cases hf
    · intro files hf; rw [hnone] at hf; cases hf
  · rename_i fs hsome
    obtain ⟨hn, hl, hv, hd, hint, hf⟩ := convertFileLoop_ok env _ _ _ _ _ _ h
    have hperm := env.rt.rangeOrder_perm fs
    refine ⟨hn, hl, hv, hd, ?_, ?_⟩
    · intro files hfiles e he
      rw [hsome] at hfiles; cases hfiles
      exact hint e (hperm.mem_iff.mpr he)
    · intro files hfiles e he
      obtain ⟨fs2, hfs2, hall⟩ := hf fs hsome
      rw [hfiles] at hfs2; cases hfs2
      obtain ⟨ha, hb⟩ := hall e he
      by_cases hk : e.1 ∈ (env.rt.rangeOrder fs).map Prod.fst
      · obtain ⟨hmem, e0, he0, hk0, hz0⟩ := ha hk
        exact ⟨hmem, fs, e0, hsome, hperm.mem_iff.mp he0, hk0, hz0⟩
      · exact absurd (List.mem_map_of_mem Prod.fst (hperm.mem_iff.mpr (hb hk))) hk

/-- C4 (as amended): after `convertFile` succeeds on a record built from a desired
version spec, every value of the record's `Files` map is a member of the known-tag
set; `Readme` is the known tag of the spec's readme when some file of the spec has the
readme as its content, and is the spec's readme unchanged when none has; likewise
`AppReadme`. -/
theorem convertFile_references (env : Env) (tv tv2 : TemplateVersion)
    (spec : TemplateVersionSpec) (s s2 : St) (hbuilt : tv.Spec = spec)
    (h : convertFile env tv spec s = (.ok tv2, s2)) :
    (∀ files, tv2.Spec.Files = some files → ∀ e ∈ files, e.2 ∈ s2.tagMap) ∧
    ((∃ files, spec.Files = some files ∧ ∃ e ∈ files, e.2 = spec.Readme) →
      ∃ tag content, zipAndHash env.codec spec.Readme = .ok (tag, content) ∧
        tv2.Spec.Readme = tag ∧ tag ∈ s2.tagMap) ∧
    ((∀ files, spec.Files = some files → ∀ e ∈ files, e.2 ≠ spec.Readme) →
      tv2.Spec.Readme = spec.Readme) ∧
    ((∃ files, spec.Files = some files ∧ ∃ e ∈ files, e.2 = spec.AppReadme) →
      ∃ tag content, zipAndHash env.codec spec.AppReadme = .ok (tag, content) ∧
        tv2.Spec.AppReadme = tag ∧ tag ∈ s2.tagMap) ∧
    ((∀ files, spec.Files = some files → ∀ e ∈ files, e.2 ≠ spec.AppReadme) →
      tv2.Spec.AppReadme = spec.AppReadme) := by
  obtain ⟨-, -, -, -, hint, hfiles⟩ := convertFile_ok env tv tv2 spec s s2 hbuilt h
  subst hbuilt
  refine ⟨fun files hf e he => (hfiles files hf e he).1, ?_, ?_, ?_, ?_⟩
  · rintro ⟨files, hf, e, he, heq⟩
    obtain ⟨tag, content, hz, htag⟩ := hint files hf e he
    rw [heq] at hz
    unfold convertFile at h
    rw [hf] at h
    obtain ⟨tag2, content2, hz2, hr⟩ :=
      (convertFileLoop_readme env _ _ _ _ _ _ h).2 e
        ((env.rt.rangeOrder_perm files).mem_iff.mpr he) heq
    rw [hz] at hz2
    cases hz2
    exact ⟨tag, content, hz, hr, htag⟩
  · intro hno
    unfold convertFile at h
    split at h
    · cases h; rfl
    · rename_i fs hsome
      exact (convertFileLoop_readme env _ _ _ _ _ _ h).1
        (fun e he => hno fs hsome e ((env.rt.rangeOrder_perm fs).mem_iff.mp he))
  · rintro ⟨files, hf, e, he, heq⟩
    obtain ⟨tag, content, hz, htag⟩ := hint files hf e he
    rw [heq] at hz
    unfold convertFile at h
    rw [hf] at h
    obtain ⟨tag2, content2, hz2, hr⟩ :=
      (convertFileLoop_appReadme env _ _ _ _ _ _ h).2 e
        ((env.rt.rangeOrder_perm files).mem_iff.mpr he) heq
    rw [hz] at hz2
    cases hz2
    exact ⟨tag, content, hz, hr, htag⟩
  · intro hno
    unfold convertFile at h
    split at h
    · cases h; rfl
    · rename_i fs hsome
      exact (convertFileLoop_appReadme env _ _ _ _ _ _ h).1
        (fun e he => hno fs hsome e ((env.rt.rangeOrder_perm fs).mem_iff.mp he))

/-- C4, witness: the version whose readme is the content of its file `a`. -/
theorem convertFile_references_witness :
    (convertFile plainEnv { Name := "", Labels := [], Spec := helloVersion } helloVersion emptySt =
      (.ok { Name := "", Labels := [],
             Spec := { helloVersion with Files := some [("a", "#hello")], Readme := "#hello" } },
       { log := [Call.TemplateContentCreate { Name := "#hello", Data := "=hello" }],
         tagMap := ["#hello"] })) ∧
    ((∀ files, some [("a", "#hello")] = some files → ∀ e ∈ files, e.2 ∈ ["#hello"]) ∧
     ∃ tag content, zipAndHash plainEnv.codec helloVersion.Readme = .ok (tag, content) ∧
        "#hello" = tag ∧ tag ∈ ["#hello"]) :=
  ⟨rfl,
   (convertFile_references plainEnv { Name := "", Labels := [], Spec := helloVersion } _
      helloVersion emptySt _ rfl rfl).1,
   (convertFile_references plainEnv { Name := "", Labels := [], Spec := helloVersion } _
      helloVersion emptySt _ rfl rfl).2.1 ⟨[("a", "hello")], rfl, ("a", "hello"), by simp, rfl⟩⟩

/-- C4, counterexample: on a version whose readme `notes` is the content of none of
its files and whose app-readme is empty, `convertFile` succeeds and leaves both fields
as they were, neither being a member of the known-tag set. -/
theorem convertFile_readme_left_raw :
    convertFile plainEnv { Name := "", Labels := [], Spec := notesVersion } notesVersion emptySt =
      (.ok { Name := "", Labels := [],
             Spec := { Version := "1.0", Digest := "d1", Files := some [("a", "#hello")],
                       Readme := "notes", AppReadme := "" } },
       { log := [Call.TemplateContentCreate { Name := "#hello", Data := "=hello" }],
         tagMap := ["#hello"] }) ∧
    "notes" ∉ ["#hello"] ∧ "" ∉ ["#hello"] :=
  ⟨rfl, by decide, by decide⟩

/-! ## One matched version in the first loop of updateTemplate -/

/-- One iteration of the first loop of `updateTemplate`, on a desired version whose
version string matches the record `tv` of `tvByVersion`: the only write to the
TemplateVersion store that can be issued is an Update of `tv`, and only when the stored
digest differs from the desired one; once the files are interned, that Update is issued
when the digests differ and no call follows when they are equal. -/
theorem updateTemplateVersion_matched (env : Env) (template : Template)
    (tvByVersion : GoMap TemplateVersion) (toUpdateVer : TemplateVersionSpec) (s : St)
    (tv : TemplateVersion) (hget : mapGet tvByVersion toUpdateVer.Version = some tv) :
    ∃ ext, (updateTemplateVersion env template tvByVersion toUpdateVer s).2.log = s.log ++ ext ∧
      (∀ c ∈ ext, c.isTemplateVersionWrite = true →
        tv.Spec.Digest ≠ toUpdateVer.Digest ∧
        ∃ spec1, c = Call.TemplateVersionUpdate { tv with Spec := spec1 }) ∧
      (∀ tvc s1,
        convertFile env { Name := "", Labels := [], Spec := toUpdateVer } toUpdateVer s
          = (.ok tvc, s1) →
        (tv.Spec.Digest ≠ toUpdateVer.Digest →
          Call.TemplateVersionUpdate { tv with Spec := tvc.Spec } ∈ ext) ∧
        (tv.Spec.Digest = toUpdateVer.Digest →
          updateTemplateVersion env template tvByVersion toUpdateVer s = (none, s1)) ∧
        (∀ files, toUpdateVer.Files = some files → ∀ e ∈ files, ∃ tag content,
          zipAndHash env.codec e.2 = .ok (tag, content) ∧
          tag ∈ (updateTemplateVersion env template tvByVersion toUpdateVer s).2.tagMap)) := by
  have hg := convertFile_grows env { Name := "", Labels := [], Spec := toUpdateVer } toUpdateVer s
  rcases hconv : convertFile env { Name := "", Labels := [], Spec := toUpdateVer } toUpdateVer s
    with ⟨r, s1⟩
  rw [hconv] at hg
  obtain ⟨⟨ext0, hlog0, hext0⟩, -⟩ := hg
  have hnw : ∀ c ∈ ext0, c.isTemplateVersionWrite = true → False := by
    intro c hc hw
    have := hext0 c hc
    cases c <;> simp [Call.isContentCreate, Call.isTemplateVersionWrite] at this hw
  cases r with
  | error err =>
    refine ⟨ext0, ?_, ?_, ?_⟩
    · simp only [updateTemplateVersion, hconv]; exact hlog0
    · intro c hc hw; exact absurd hw (fun h => hnw c hc h)
    · intro tvc s2 h; cases h
  | ok tvc =>
    have hok := convertFile_ok env _ tvc toUpdateVer s s1 rfl hconv
    by_cases hd : tv.Spec.Digest = toUpdateVer.Digest
    · have hres : updateTemplateVersion env template tvByVersion toUpdateVer s = (none, s1) := by
        simp only [updateTemplateVersion, hconv, hget, hd, ne_eq, not_true_eq_false, if_false]
      refine ⟨ext0, by rw [hres]; exact hlog0, ?_, ?_⟩
      · intro c hc hw; exact absurd hw (fun h => hnw c hc h)
      · intro tvc2 s2 h
        cases h
        refine ⟨fun hne => absurd hd hne, fun _ => hres, ?_⟩
        intro files hf e he
        rw [hres]
        exact hok.2.2.2.2.1 files hf e he
    · have hres : (updateTemplateVersion env template tvByVersion toUpdateVer s).2 =
          s1.call (Call.TemplateVersionUpdate { tv with Spec := tvc.Spec }) := by
        simp only [updateTemplateVersion, hconv, hget, ne_eq, hd, not_false_eq_true, if_true]
        split <;> rfl
      refine ⟨ext0 ++ [Call.TemplateVersionUpdate { tv with Spec := tvc.Spec }], ?_, ?_, ?_⟩
      · rw [hres]
        have hlog1 : s1.log = s.log ++ ext0 := hlog0
        simp [St.call, hlog1]
      · intro c hc hw
        rcases List.mem_append.mp hc with h | h
        · exact absurd hw (fun h2 => hnw c h h2)
        · simp only [List.mem_singleton] at h
          exact ⟨hd, tvc.Spec, h⟩
      · intro tvc2 s2 h
        cases h
        refine ⟨fun _ => by simp, fun he => absurd he hd, ?_⟩
        intro files hf e he
        rw [hres]
        exact hok.2.2.2.2.1 files hf e he

/-! ## Calls issued by createTemplate and updateTemplate -/

theorem createTemplateVersion_grows (env : Env) (template : Template)
    (spec : TemplateVersionSpec) (s : St) :
    Grows Call.inCreateTemplate s (createTemplateVersion env template spec s).2 := by
  have h1 := (convertFile_grows env
    { Name := template.Name ++ "-" ++ spec.Version,
      Labels := [(TemplateNameLabel, template.Name)], Spec := spec } spec s).mono
    (Q := Call.inCreateTemplate) (fun c hc => by cases c <;> simp_all [Call.isContentCreate, Call.inCreateTemplate])
  unfold createTemplateVersion
  dsimp only
  split
  · rename_i hc; rw [hc] at h1; exact h1
  · rename_i tv s1 hc; rw [hc] at h1
    have h2 : Grows Call.inCreateTemplate s1 (s1.call (Call.TemplateVersionCreate tv)) :=
      Grows.call _ _ trivial
    split
    · split <;> exact h1.trans h2
    · exact h1.trans h2

theorem createTemplateVersions_grows (env : Env) (l : List TemplateVersionSpec)
    (template : Template) (s : St) :
    Grows Call.inCreateTemplate s (createTemplateVersions env l template s).2 := by
  induction l generalizing s with
  | nil => exact Grows.refl _ _
  | cons spec rest ih =>
    have h1 := createTemplateVersion_grows env template spec s
    unfold createTemplateVersions
    split
    · rename_i hc; rw [hc] at h1; exact h1
    · rename_i s1 hc; rw [hc] at h1
      exact h1.trans (ih s1)

theorem stripped_map (t : Template) (spec : TemplateSpec) (icon : String) (labels : GoMap String) :
    Stripped { t with Labels := labels,
                      Spec := { spec with Icon := icon, Versions := spec.Versions.map stripVersion } } := by
  intro v hv
  simp only [List.mem_map] at hv
  obtain ⟨a, _, rfl⟩ := hv
  exact ⟨rfl, rfl, rfl⟩

theorem convertTemplateIcon_ok (env : Env) (t t2 : Template) (s s2 : St)
    (h : convertTemplateIcon env t s = (.ok t2, s2)) :
    ∃ tag content, zipAndHash env.codec t.Spec.Icon = .ok (tag, content) ∧ tag ∈ s2.tagMap ∧
      t2 = { t with Spec := { t.Spec with Icon := tag } } := by
  unfold convertTemplateIcon at h
  split at h
  · cases h
  · rename_i tag content hz
    split at h
    · cases h
    · rename_i s1 hc
      cases h
      exact ⟨tag, content, hz, createIfUnknown_ok env tag content s _ hc, rfl⟩

theorem createTemplate_grows (env : Env) (template : Template) (catalog : Catalog) (s : St) :
    Grows Call.inCreateTemplate s (createTemplate env template catalog s).2 := by
  have h1 := (convertTemplateIcon_grows env
    { template with
      Labels := [(CatalogNameLabel, catalog.Name)],
      Spec := { template.Spec with Versions := template.Spec.Versions.map stripVersion } } s).mono
    (Q := Call.inCreateTemplate)
    (fun c hc => by cases c <;> simp_all [Call.isContentCreate, Call.inCreateTemplate])
  unfold createTemplate
  dsimp only
  split
  · rename_i err s1 hc
    rw [hc] at h1
    exact h1
  · rename_i t2 s1 hc
    rw [hc] at h1
    obtain ⟨tag, content, -, -, ht2⟩ := convertTemplateIcon_ok env _ t2 s s1 hc
    have hs : Stripped t2 := by
      rw [ht2]
      exact stripped_map template template.Spec tag _
    have h2 : Grows Call.inCreateTemplate s1 (s1.call (Call.TemplateCreate t2)) :=
      Grows.call _ _ hs
    split
    · exact h1.trans h2
    · exact (h1.trans h2).trans (createTemplateVersions_grows _ _ _ _)

theorem updateTemplateVersion_grows (env : Env) (template : Template)
    (tvByVersion : GoMap TemplateVersion) (v : TemplateVersionSpec) (s : St) :
    Grows (fun c => c.inUpdateTemplate ∧ c.isTemplateVersionDelete = false) s
      (updateTemplateVersion env template tvByVersion v s).2 := by
  have h1 := (convertFile_grows env { Name := "", Labels := [], Spec := v } v s).mono
    (Q := fun c => c.inUpdateTemplate ∧ c.isTemplateVersionDelete = false)
    (fun c hc => by
      cases c <;> simp_all [Call.isContentCreate, Call.inUpdateTemplate, Call.isTemplateVersionDelete])
  unfold updateTemplateVersion
  dsimp only
  split
  · rename_i hc; rw [hc] at h1; exact h1
  · rename_i tvc s1 hc; rw [hc] at h1
    split
    · split
      · have h2 : Grows (fun c => c.inUpdateTemplate ∧ c.isTemplateVersionDelete = false) s1
            (s1.call (Call.TemplateVersionUpdate { (‹TemplateVersion› : TemplateVersion) with Spec := tvc.Spec })) :=
          Grows.call _ _ ⟨trivial, rfl⟩
        split <;> exact h1.trans h2
      · exact h1
    · have h2 : ∀ tv, Grows (fun c => c.inUpdateTemplate ∧ c.isTemplateVersionDelete = false) s1
            (s1.call (Call.TemplateVersionCreate tv)) :=
          fun tv => Grows.call _ _ ⟨trivial, rfl⟩
      split <;> exact h1.trans (h2 _)

theorem updateTemplateVersions_grows (env : Env) (template : Template)
    (tvByVersion : GoMap TemplateVersion) (l : List TemplateVersionSpec) (s : St) :
    Grows (fun c => c.inUpdateTemplate ∧ c.isTemplateVersionDelete = false) s
      (updateTemplateVersions env template tvByVersion l s).2 := by
  induction l generalizing s with
  | nil => exact Grows.refl _ _
  | cons v rest ih =>
    have h1 := updateTemplateVersion_grows env template tvByVersion v s
    unfold updateTemplateVersions
    split
    · rename_i hc; rw [hc] at h1; exact h1
    · rename_i s1 hc; rw [hc] at h1
      exact h1.trans (ih s1)

theorem deleteStaleVersions_grows (env : Env) (keep : List String)
    (l : List (String × TemplateVersion)) (s : St) :
    Grows Call.inUpdateTemplate s (deleteStaleVersions env keep l s).2 := by
  induction l generalizing s with
  | nil => exact Grows.refl _ _
  | cons e rest ih =>
    obtain ⟨v, tv⟩ := e
    unfold deleteStaleVersions
    have h2 : Grows Call.inUpdateTemplate s (s.call (Call.TemplateVersionDelete tv.Name)) :=
      Grows.call _ _ trivial
    split
    · dsimp only
      split
      · split
        · exact h2
        · exact h2.trans (ih _)
      · exact h2.trans (ih _)
    · exact ih _

theorem updateTemplate_grows (env : Env) (template toUpdate : Template) (s : St) :
    Grows Call.inUpdateTemplate s (updateTemplate env template toUpdate s).2 := by
  unfold updateTemplate
  dsimp only
  have h0 : Grows Call.inUpdateTemplate s
      (s.call (Call.TemplateVersionList (TemplateNameLabel ++ "=" ++ template.Name))) :=
    Grows.call _ _ trivial
  split
  · exact h0
  · rename_i items _
    have h1 := (updateTemplateVersions_grows env template (tvByVersionOf items)
      toUpdate.Spec.Versions
      (s.call (Call.TemplateVersionList (TemplateNameLabel ++ "=" ++ template.Name)))).mono
      (Q := Call.inUpdateTemplate) (fun c hc => hc.1)
    split
    · rename_i hc; rw [hc] at h1; exact h0.trans h1
    · rename_i s2 hc; rw [hc] at h1
      have h2 := deleteStaleVersions_grows env (toUpdate.Spec.Versions.map (fun v => v.Version))
        (env.rt.rangeOrder (tvByVersionOf items)) s2
      split
      · rename_i hc2; rw [hc2] at h2; exact (h0.trans h1).trans h2
      · rename_i s3 hc2; rw [hc2] at h2
        have h3 := (convertTemplateIcon_grows env
          { template with Spec := { toUpdate.Spec with
              Versions := toUpdate.Spec.Versions.map stripVersion } } s3).mono
          (Q := Call.inUpdateTemplate)
          (fun c hc => by cases c <;> simp_all [Call.isContentCreate, Call.inUpdateTemplate])
        split
        · rename_i hc3; rw [hc3] at h3; exact ((h0.trans h1).trans h2).trans h3
        · rename_i t2 s4 hc3; rw [hc3] at h3
          obtain ⟨tag, content, -, -, ht2⟩ := convertTemplateIcon_ok env _ t2 s3 s4 hc3
          have hs : Stripped t2 := by
            rw [ht2]
            exact stripped_map template toUpdate.Spec tag _
          have h4 : Grows Call.inUpdateTemplate s4 (s4.call (Call.TemplateUpdate t2)) :=
            Grows.call _ _ hs
          split <;> exact (((h0.trans h1).trans h2).trans h3).trans h4

/-! ## The stripped payload of a Template record (C6) -/

/-- C6: every Template record handed to the Template store by `createTemplate` (Create)
or by `updateTemplate` (Update) has `Files = nil`, `Readme = ""` and `AppReadme = ""`
in every entry of `Spec.Versions`, whatever the desired template carried. -/
theorem template_record_stripped (env : Env) (template existing toUpdate : Template)
    (catalog : Catalog) (s : St) :
    (∃ ext, (createTemplate env template catalog s).2.log = s.log ++ ext ∧
      ∀ c ∈ ext, ∀ t, c = Call.TemplateCreate t ∨ c = Call.TemplateUpdate t →
        ∀ v ∈ t.Spec.Versions, v.Files = none ∧ v.Readme = "" ∧ v.AppReadme = "") ∧
    (∃ ext, (updateTemplate env existing toUpdate s).2.log = s.log ++ ext ∧
      ∀ c ∈ ext, ∀ t, c = Call.TemplateCreate t ∨ c = Call.TemplateUpdate t →
        ∀ v ∈ t.Spec.Versions, v.Files = none ∧ v.Readme = "" ∧ v.AppReadme = "") := by
  constructor
  · obtain ⟨⟨ext, hlog, hext⟩, -⟩ := createTemplate_grows env template catalog s
    refine ⟨ext, hlog, ?_⟩
    intro c hc t ht
    have := hext c hc
    rcases ht with rfl | rfl
    · exact this
    · exact absurd this (by simp [Call.inCreateTemplate])
  · obtain ⟨⟨ext, hlog, hext⟩, -⟩ := updateTemplate_grows env existing toUpdate s
    refine ⟨ext, hlog, ?_⟩
    intro c hc t ht
    have := hext c hc
    rcases ht with rfl | rfl
    · exact absurd this (by simp [Call.inUpdateTemplate])
    · exact this

/-! ## Conflicts on create (C5) -/

/-- With a content store that accepts every create, the block creating an unknown
content does not fail. -/
theorem createIfUnknown_of_ok (env : Env) (tag content : String) (s : St)
    (hc : ∀ log tc, ∃ r, env.m.templateContentCreate log tc = .ok r) :
    (createIfUnknown env tag content s).1 = none := by
  unfold createIfUnknown
  split
  · rfl
  · dsimp only
    obtain ⟨r, hr⟩ := hc s.log { Name := tag, Data := content }
    rw [hr]

theorem convertFileLoop_of_ok (env : Env) (spec : TemplateVersionSpec)
    (hz : ∀ c, ∃ b, env.codec.gzip c = .ok b)
    (hc : ∀ log tc, ∃ r, env.m.templateContentCreate log tc = .ok r)
    (l : List (String × String)) (tv : TemplateVersion) (s : St) (fs : GoMap String)
    (hfs : tv.Spec.Files = some fs) :
    ∃ tv2, (convertFileLoop env spec l tv s).1 = .ok tv2 := by
  induction l generalizing tv s fs with
  | nil => exact ⟨tv, rfl⟩
  | cons e rest ih =>
    obtain ⟨name, file⟩ := e
    unfold convertFileLoop
    have hentry : ∃ tv1 s1 fs1, convertFileEntry env spec name file tv s = (.ok tv1, s1) ∧
        tv1.Spec.Files = some fs1 := by
      unfold convertFileEntry
      obtain ⟨b, hb⟩ := hz file
      simp only [zipAndHash, hb]
      have h1 := createIfUnknown_of_ok env (env.codec.hex (env.codec.sha256 b))
        (env.codec.base64 b) s hc
      rcases hcr : createIfUnknown env (env.codec.hex (env.codec.sha256 b))
        (env.codec.base64 b) s with ⟨r, s1⟩
      rw [hcr] at h1
      simp only at h1
      subst h1
      simp only [hfs]
      split_ifs <;> exact ⟨_, _, _, rfl, rfl⟩
    obtain ⟨tv1, s1, fs1, h1, h2⟩ := hentry
    rw [h1]
    exact ih tv1 s1 fs1 h2

theorem convertFile_of_ok (env : Env) (spec : TemplateVersionSpec)
    (hz : ∀ c, ∃ b, env.codec.gzip c = .ok b)
    (hc : ∀ log tc, ∃ r, env.m.templateContentCreate log tc = .ok r)
    (tv : TemplateVersion) (s : St) (hbuilt : tv.Spec = spec) :
    ∃ tv2, (convertFile env tv spec s).1 = .ok tv2 := by
  unfold convertFile
  split
  · exact ⟨tv, rfl⟩
  · rename_i fs hfs
    exact convertFileLoop_of_ok env spec hz hc _ tv s fs (hbuilt ▸ hfs)

/-- C5 (as amended): an "already exists" answer to a TemplateVersion create issued by
`createTemplateVersions` is treated as success (when interning succeeds and version
creates fail with nothing else, `createTemplateVersions` returns no error); an error
answer to a TemplateContent create issued by `convertTemplateIcon` or by the loop of
`convertFile`, "already exists" included, is returned to the caller. -/
theorem create_conflicts (env : Env) :
    ((∀ c, ∃ b, env.codec.gzip c = .ok b) →
      (∀ log tc, ∃ r, env.m.templateContentCreate log tc = .ok r) →
      (∀ log tv err, env.m.templateVersionCreate log tv = .error err →
        IsAlreadyExists err = true) →
      ∀ versionsSpec template s, (createTemplateVersions env versionsSpec template s).1 = none) ∧
    (∀ t s tag content err, zipAndHash env.codec t.Spec.Icon = .ok (tag, content) →
      tag ∉ s.tagMap →
      env.m.templateContentCreate s.log { Name := tag, Data := content } = .error err →
      convertTemplateIcon env t s =
        (.error err, s.call (Call.TemplateContentCreate { Name := tag, Data := content }))) ∧
    (∀ spec name file tv s tag content err, zipAndHash env.codec file = .ok (tag, content) →
      tag ∉ s.tagMap →
      env.m.templateContentCreate s.log { Name := tag, Data := content } = .error err →
      convertFileEntry env spec name file tv s =
        (.error err, s.call (Call.TemplateContentCreate { Name := tag, Data := content }))) := by
  refine ⟨?_, ?_, ?_⟩
  · intro hz hc hv versionsSpec template s
    induction versionsSpec generalizing s with
    | nil => rfl
    | cons spec rest ih =>
      unfold createTemplateVersions
      have hstep : ∃ s1, createTemplateVersion env template spec s = (none, s1) := by
        unfold createTemplateVersion
        dsimp only
        obtain ⟨tv2, h2⟩ := convertFile_of_ok env spec hz hc
          { Name := template.Name ++ "-" ++ spec.Version,
            Labels := [(TemplateNameLabel, template.Name)], Spec := spec } s rfl
        rcases hcf : convertFile env
          { Name := template.Name ++ "-" ++ spec.Version,
            Labels := [(TemplateNameLabel, template.Name)], Spec := spec } spec s with ⟨r, s1⟩
        rw [hcf] at h2
        simp only at h2
        subst h2
        dsimp only
        rcases hcr : env.m.templateVersionCreate s1.log tv2 with err | r
        · have := hv s1.log tv2 err hcr
          simp [this]
        · exact ⟨_, rfl⟩
      obtain ⟨s1, h1⟩ := hstep
      rw [h1]
      exact ih s1
  · intro t s tag content err hz hn hc
    simp [convertTemplateIcon, hz, createIfUnknown, hn, hc]
  · intro spec name file tv s tag content err hz hn hc
    simp [convertFileEntry, hz, createIfUnknown, hn, hc]

/-- C5, witness: stores in which every version create, respectively every content
create, answers "already exists". -/
theorem create_conflicts_witness :
    (createTemplateVersions versionConflictEnv [helloVersion] helloTemplate emptySt).1 = none ∧
    convertTemplateIcon contentConflictEnv helloTemplate emptySt =
      (.error alreadyExists,
        emptySt.call (Call.TemplateContentCreate { Name := "#ico", Data := "=ico" })) ∧
    convertFileEntry contentConflictEnv helloVersion "a" "hello"
        { Name := "", Labels := [], Spec := helloVersion } emptySt =
      (.error alreadyExists,
        emptySt.call (Call.TemplateContentCreate { Name := "#hello", Data := "=hello" })) :=
  ⟨(create_conflicts versionConflictEnv).1 (fun c => ⟨_, rfl⟩) (fun _ tc => ⟨tc, rfl⟩)
      (fun _ _ err h => by cases h; rfl) [helloVersion] helloTemplate emptySt,
   (create_conflicts contentConflictEnv).2.1 helloTemplate emptySt "#ico" "=ico" alreadyExists
      rfl (by simp [emptySt]) rfl,
   (create_conflicts contentConflictEnv).2.2 helloVersion "a" "hello"
      { Name := "", Labels := [], Spec := helloVersion } emptySt "#hello" "=hello" alreadyExists
      rfl (by simp [emptySt]) rfl⟩

/-- C5, counterexample: when the TemplateContent create answers "already exists",
`convertTemplateIcon` and `convertFile` return that error; so does the iteration of
`updateTemplate` when the create of a new TemplateVersion answers "already exists". -/
theorem content_conflict_is_error :
    IsAlreadyExists alreadyExists = true ∧
    (updateTemplateVersion versionConflictEnv helloTemplate [] helloVersion emptySt).1 =
      some alreadyExists ∧
    convertTemplateIcon contentConflictEnv helloTemplate emptySt =
      (.error alreadyExists,
        { log := [Call.TemplateContentCreate { Name := "#ico", Data := "=ico" }], tagMap := [] }) ∧
    convertFile contentConflictEnv { Name := "", Labels := [], Spec := helloVersion }
        helloVersion emptySt =
      (.error alreadyExists,
        { log := [Call.TemplateContentCreate { Name := "#hello", Data := "=hello" }],
          tagMap := [] }) :=
  ⟨rfl, rfl, rfl, rfl⟩

/-! ## Interning twice (C7) -/

/-- The calls of the block creating an unknown content: one create when the tag is
not known, none when it is. -/
theorem createIfUnknown_log (env : Env) (tag content : String) (s : St) :
    (createIfUnknown env tag content s).2.log =
      s.log ++ (if tag ∈ s.tagMap then []
        else [Call.TemplateContentCreate { Name := tag, Data := content }]) := by
  unfold createIfUnknown
  split
  · simp
  · dsimp only
    split <;> rfl

theorem createIfUnknown_known (env : Env) (tag content : String) (s : St)
    (h : tag ∈ s.tagMap) : createIfUnknown env tag content s = (none, s) := by
  simp [createIfUnknown, h]

theorem convertTemplateIcon_known (env : Env) (t : Template) (s : St) (tag content : String)
    (hz : zipAndHash env.codec t.Spec.Icon = .ok (tag, content)) (h : tag ∈ s.tagMap) :
    convertTemplateIcon env t s = (.ok { t with Spec := { t.Spec with Icon := tag } }, s) := by
  simp [convertTemplateIcon, hz, createIfUnknown_known env tag content s h]

theorem convertTemplateIcon_log (env : Env) (t : Template) (s : St) (tag content : String)
    (hz : zipAndHash env.codec t.Spec.Icon = .ok (tag, content)) :
    (convertTemplateIcon env t s).2.log =
      s.log ++ (if tag ∈ s.tagMap then []
        else [Call.TemplateContentCreate { Name := tag, Data := content }]) := by
  have h := createIfUnknown_log env tag content s
  simp only [convertTemplateIcon, hz]
  split
  · rename_i hc; rw [hc] at h; exact h
  · rename_i hc; rw [hc] at h; exact h

theorem convertFileEntry_known (env : Env) (spec : TemplateVersionSpec) (name file : String)
    (tv : TemplateVersion) (s : St) (tag content : String)
    (hz : zipAndHash env.codec file = .ok (tag, content)) (h : tag ∈ s.tagMap) :
    (convertFileEntry env spec name file tv s).2 = s := by
  simp only [convertFileEntry, hz, createIfUnknown_known env tag content s h]
  split <;> rfl

theorem convertFileEntry_state (env : Env) (spec : TemplateVersionSpec) (name file : String)
    (tv : TemplateVersion) (s : St) (tag content : String)
    (hz : zipAndHash env.codec file = .ok (tag, content)) :
    (convertFileEntry env spec name file tv s).2 = (createIfUnknown env tag content s).2 := by
  simp only [convertFileEntry, hz]
  rcases createIfUnknown env tag content s with ⟨r, s1⟩
  cases r with
  | some err => rfl
  | none =>
    dsimp only
    split <;> rfl

theorem convertFileLoop_known (env : Env) (spec : TemplateVersionSpec) (c tag content : String)
    (hz : zipAndHash env.codec c = .ok (tag, content))
    (l : List (String × String)) (hl : ∀ e ∈ l, e.2 = c) (tv : TemplateVersion) (s : St)
    (h : tag ∈ s.tagMap) : (convertFileLoop env spec l tv s).2 = s := by
  induction l generalizing tv with
  | nil => rfl
  | cons e rest ih =>
    obtain ⟨name, file⟩ := e
    have hf : file = c := hl (name, file) (List.mem_cons_self _ _)
    subst hf
    have h1 := convertFileEntry_known env spec name file tv s tag content hz h
    unfold convertFileLoop
    split
    · rename_i hc; rw [hc] at h1; exact h1
    · rename_i tv1 s1 hc; rw [hc] at h1
      simp only at h1
      subst h1
      exact ih (fun e he => hl e (List.mem_cons_of_mem _ he)) tv1

theorem convertFileLoop_same_log (env : Env) (spec : TemplateVersionSpec)
    (c tag content : String) (hz : zipAndHash env.codec c = .ok (tag, content))
    (l : List (String × String)) (hne : l ≠ []) (hl : ∀ e ∈ l, e.2 = c)
    (tv : TemplateVersion) (s : St) :
    (convertFileLoop env spec l tv s).2.log =
      s.log ++ (if tag ∈ s.tagMap then []
        else [Call.TemplateContentCreate { Name := tag, Data := content }]) := by
  by_cases hk : tag ∈ s.tagMap
  · rw [convertFileLoop_known env spec c tag content hz l hl tv s hk]
    simp [hk]
  · cases l with
    | nil => exact absurd rfl hne
    | cons e rest =>
      obtain ⟨name, file⟩ := e
      have hf : file = c := hl (name, file) (List.mem_cons_self _ _)
      subst hf
      have hlog := createIfUnknown_log env tag content s
      unfold convertFileLoop
      split
      · rename_i err s1 hc
        have hs1 := convertFileEntry_state env spec name file tv s tag content hz
        rw [hc] at hs1
        simp only at hs1
        rw [hs1, hlog]
      · rename_i tv1 s1 hc
        have hs1 := convertFileEntry_state env spec name file tv s tag content hz
        obtain ⟨tag2, content2, files, hz2, htag, -, -⟩ :=
          convertFileEntry_ok env spec name file tv tv1 s s1 hc
        rw [hz] at hz2
        cases hz2
        rw [convertFileLoop_known env spec file tag content hz rest
          (fun e he => hl e (List.mem_cons_of_mem _ he)) tv1 s1 htag]
        rw [hc] at hs1
        simp only at hs1
        rw [hs1, hlog]

/-- C7: interning one content twice in sequence against the same known-tag set yields
the same tag both times and costs at most one TemplateContent Create in all: one when
the tag was not known beforehand, none when it was. Through `convertTemplateIcon`
twice, through one `convertFile` over files of that content, and through either
followed by the other. -/
theorem intern_twice (env : Env) (c tag content : String) (s : St)
    (hz : zipAndHash env.codec c = .ok (tag, content)) :
    (∀ t1 t2, t1.Spec.Icon = c → t2.Spec.Icon = c →
      (convertTemplateIcon env t1 s).2.log =
        s.log ++ (if tag ∈ s.tagMap then []
          else [Call.TemplateContentCreate { Name := tag, Data := content }]) ∧
      ∀ t3 s1, convertTemplateIcon env t1 s = (.ok t3, s1) →
        t3.Spec.Icon = tag ∧
        convertTemplateIcon env t2 s1 =
          (.ok { t2 with Spec := { t2.Spec with Icon := tag } }, s1)) ∧
    (∀ tv spec files, tv.Spec = spec → spec.Files = some files → files ≠ [] →
      (∀ e ∈ files, e.2 = c) →
      (convertFile env tv spec s).2.log =
        s.log ++ (if tag ∈ s.tagMap then []
          else [Call.TemplateContentCreate { Name := tag, Data := content }]) ∧
      ∀ tv2 s2, convertFile env tv spec s = (.ok tv2, s2) →
        ∀ fs2, tv2.Spec.Files = some fs2 → ∀ e ∈ fs2, e.2 = tag) ∧
    (∀ t1 t3 s1 tv spec files, t1.Spec.Icon = c →
      convertTemplateIcon env t1 s = (.ok t3, s1) → spec.Files = some files →
      (∀ e ∈ files, e.2 = c) → (convertFile env tv spec s1).2 = s1) ∧
    (∀ tv spec files tv2 s2 t, tv.Spec = spec → spec.Files = some files → files ≠ [] →
      (∀ e ∈ files, e.2 = c) → convertFile env tv spec s = (.ok tv2, s2) → t.Spec.Icon = c →
      convertTemplateIcon env t s2 =
        (.ok { t with Spec := { t.Spec with Icon := tag } }, s2)) := by
  refine ⟨?_, ?_, ?_, ?_⟩
  · intro t1 t2 h1 h2
    subst h1
    refine ⟨convertTemplateIcon_log env t1 s tag content hz, ?_⟩
    intro t3 s1 hconv
    obtain ⟨tag2, content2, hz2, hmem, ht3⟩ := convertTemplateIcon_ok env t1 t3 s s1 hconv
    rw [hz] at hz2
    cases hz2
    refine ⟨by rw [ht3], ?_⟩
    exact convertTemplateIcon_known env t2 s1 tag content (h2 ▸ hz) hmem
  · intro tv spec files hb hf hne hall
    have hperm := env.rt.rangeOrder_perm files
    have hne2 : env.rt.rangeOrder files ≠ [] := by
      intro h0
      rw [h0] at hperm
      exact hne (List.Perm.nil_eq hperm).symm
    have hall2 : ∀ e ∈ env.rt.rangeOrder files, e.2 = c :=
      fun e he => hall e (hperm.mem_iff.mp he)
    constructor
    · simp only [convertFile, hf]
      exact convertFileLoop_same_log env spec c tag content hz _ hne2 hall2 tv s
    · intro tv2 s2 hconv fs2 hfs2 e he
      obtain ⟨-, files0, e0, hf0, he0, -, content0, hz0⟩ :=
        (convertFile_ok env tv tv2 spec s s2 hb hconv).2.2.2.2.2 fs2 hfs2 e he
      rw [hf] at hf0
      cases hf0
      rw [hall e0 he0, hz] at hz0
      cases hz0
      rfl
  · intro t1 t3 s1 tv spec files h1 hconv hf hall
    subst h1
    obtain ⟨tag2, content2, hz2, hmem, -⟩ := convertTemplateIcon_ok env t1 t3 s s1 hconv
    rw [hz] at hz2
    cases hz2
    simp only [convertFile, hf]
    exact convertFileLoop_known env spec _ tag content hz _
      (fun e he => hall e ((env.rt.rangeOrder_perm files).mem_iff.mp he)) tv s1 hmem
  · intro tv spec files tv2 s2 t hb hf hne hall hconv ht
    cases files with
    | nil => exact absurd rfl hne
    | cons e0 rest =>
      obtain ⟨tag2, content2, hz2, hmem⟩ :=
        (convertFile_ok env tv tv2 spec s s2 hb hconv).2.2.2.2.1 _ hf e0
          (List.mem_cons_self _ _)
      rw [hall e0 (List.mem_cons_self _ _), hz] at hz2
      cases hz2
      exact convertTemplateIcon_known env t s2 tag content (ht ▸ hz) hmem

/-- C7, witness: the icon `ico` interned twice from the empty tag set costs the one
create of `#ico`. -/
theorem intern_twice_witness :
    zipAndHash plainEnv.codec "ico" = .ok ("#ico", "=ico") ∧
    (convertTemplateIcon plainEnv helloTemplate emptySt).2.log =
      emptySt.log ++ (if "#ico" ∈ emptySt.tagMap then []
        else [Call.TemplateContentCreate { Name := "#ico", Data := "=ico" }]) ∧
    ∀ t3 s1, convertTemplateIcon plainEnv helloTemplate emptySt = (.ok t3, s1) →
      t3.Spec.Icon = "#ico" ∧
      convertTemplateIcon plainEnv helloTemplate s1 =
        (.ok { helloTemplate with Spec := { helloTemplate.Spec with Icon := "#ico" } }, s1) :=
  ⟨rfl, (intern_twice plainEnv "ico" "#ico" "=ico" emptySt rfl).1 helloTemplate helloTemplate
    rfl rfl⟩

/-! ## The delete phase (C9) -/

/-- The calls of the inner loop of the delete phase: a prefix of the deletes of the
names, all of them when the loop ends without error. -/
theorem deleteTemplateVersions_log (env : Env) (names : List String) (s : St) :
    ∃ done, (deleteTemplateVersions env names s).2.log =
        s.log ++ done.map Call.TemplateVersionDelete ∧
      ((deleteTemplateVersions env names s).1 = none → done = names) ∧
      (deleteTemplateVersions env names s).2.tagMap = s.tagMap := by
  induction names generalizing s with
  | nil => exact ⟨[], by simp [deleteTemplateVersions], fun _ => rfl, rfl⟩
  | cons tv rest ih =>
    obtain ⟨done, hlog, hall, htag⟩ := ih (s.call (Call.TemplateVersionDelete tv))
    have hcont : ∃ done, (deleteTemplateVersions env rest (s.call (Call.TemplateVersionDelete tv))).2.log =
        s.log ++ List.map Call.TemplateVersionDelete done ∧
        ((deleteTemplateVersions env rest (s.call (Call.TemplateVersionDelete tv))).1 = none →
          done = tv :: rest) ∧
        (deleteTemplateVersions env rest (s.call (Call.TemplateVersionDelete tv))).2.tagMap =
          s.tagMap := by
      refine ⟨tv :: done, ?_, ?_, htag⟩
      · rw [hlog]; simp [St.call]
      · intro h; rw [hall h]
    unfold deleteTemplateVersions
    dsimp only
    split
    · split
      · exact ⟨[tv], by simp [St.call], ⟨fun h => by simp at h, rfl⟩⟩
      · exact hcont
    · exact hcont

theorem deleteTemplateVersions_tolerant (env : Env)
    (hv : ∀ log name err, env.m.templateVersionDelete log name = some err →
      IsNotFound err = true)
    (names : List String) (s : St) : (deleteTemplateVersions env names s).1 = none := by
  induction names generalizing s with
  | nil => rfl
  | cons tv rest ih =>
    unfold deleteTemplateVersions
    dsimp only
    split
    · rename_i err herr
      simp only [hv _ _ _ herr, Bool.not_true, Bool.false_eq_true, if_false]
      exact ih _
    · exact ih _

theorem mem_mapSet_keys {V : Type} (m : GoMap V) (k : String) (v : V) :
    k ∈ mapKeys (mapSet m k v) ∧ ∀ k1 ∈ mapKeys m, k1 ∈ mapKeys (mapSet m k v) := by
  unfold mapSet
  split
  · rename_i hk
    have hkeys : mapKeys (m.map (fun e => if e.1 = k then (e.1, v) else e)) = mapKeys m := by
      unfold mapKeys
      rw [List.map_map]
      apply List.map_congr_left
      intro e _
      by_cases h : e.1 = k <;> simp [h]
    rw [hkeys]
    exact ⟨hk, fun _ h => h⟩
  · simp [mapKeys]
    intro k1 v1 h
    exact Or.inl ⟨v1, h⟩

theorem mem_keys_foldl_mapSet {α V : Type} (key : α → String) (val : α → V) (items : List α)
    (acc : GoMap V) :
    (∀ k ∈ mapKeys acc, k ∈ mapKeys (items.foldl (fun a x => mapSet a (key x) (val x)) acc)) ∧
    ∀ x ∈ items, key x ∈ mapKeys (items.foldl (fun a x => mapSet a (key x) (val x)) acc) := by
  induction items generalizing acc with
  | nil => exact ⟨fun _ h => h, by simp⟩
  | cons y rest ih =>
    obtain ⟨h1, h2⟩ := ih (mapSet acc (key y) (val y))
    obtain ⟨h3, h4⟩ := mem_mapSet_keys acc (key y) (val y)
    simp only [List.foldl_cons]
    refine ⟨fun k hk => h1 k (h4 k hk), ?_⟩
    intro x hx
    rcases List.mem_cons.mp hx with rfl | hx
    · exact h1 _ h3
    · exact h2 x hx

/-! ## Order and tolerance of the delete phase (C9) -/

theorem append_singleton_split {α : Type} (l0 pre post : List α) (x : α) (hx : x ∉ l0)
    (h : l0 ++ [x] = pre ++ x :: post) : pre = l0 ∧ post = [] := by
  induction l0 generalizing pre with
  | nil =>
    cases pre with
    | nil =>
      simp only [List.nil_append, List.cons.injEq, true_and] at h
      exact ⟨rfl, h.symm⟩
    | cons a pre1 =>
      have := congrArg List.length h
      simp at this
  | cons a l1 ih =>
    cases pre with
    | nil =>
      simp only [List.cons_append, List.nil_append, List.cons.injEq] at h
      exact absurd (h.1 ▸ List.mem_cons_self _ _) hx
    | cons b pre1 =>
      simp only [List.cons_append, List.cons.injEq] at h
      obtain ⟨h1, h2⟩ := ih pre1 (fun hm => hx (List.mem_cons_of_mem _ hm)) h.2
      exact ⟨by rw [h.1, h1], h2⟩

/-- The calls of one iteration of the delete phase, on a successful listing: the
listing, the deletes of some of the listed names, and, when all of them were deleted,
the delete of the template at the end. -/
theorem deleteTemplate_log (env : Env) (toDelete : String) (s : St)
    (items : List TemplateVersion)
    (hlist : env.m.templateVersionList s.log (TemplateNameLabel ++ "=" ++ toDelete) = .ok items) :
    ∃ (dels : List String) (last : List Call), (deleteTemplate env toDelete s).2.log =
        s.log ++ (Call.TemplateVersionList (TemplateNameLabel ++ "=" ++ toDelete) ::
          dels.map Call.TemplateVersionDelete ++ last) ∧
      (last = [] ∨ (last = [Call.TemplateDelete toDelete] ∧
        ∀ ver ∈ items, ver.Name ∈ dels)) ∧
      ((deleteTemplate env toDelete s).1 = none → last = [Call.TemplateDelete toDelete]) := by
  unfold deleteTemplate getTemplateVersion
  simp only [hlist]
  obtain ⟨dels, hlog, hall, -⟩ := deleteTemplateVersions_log env
    (env.rt.rangeOrder (mapKeys (items.foldl (fun acc ver => mapSet acc ver.Name ()) [])))
    (s.call (Call.TemplateVersionList (TemplateNameLabel ++ "=" ++ toDelete)))
  have hmem : ∀ ver ∈ items, ver.Name ∈
      env.rt.rangeOrder (mapKeys (items.foldl (fun acc ver => mapSet acc ver.Name ()) [])) :=
    fun ver hver => (env.rt.rangeOrder_perm _).mem_iff.mpr
      ((mem_keys_foldl_mapSet (fun v : TemplateVersion => v.Name) (fun _ => ()) items []).2
        ver hver)
  rcases hc : deleteTemplateVersions env
    (env.rt.rangeOrder (mapKeys (items.foldl (fun acc ver => mapSet acc ver.Name ()) [])))
    (s.call (Call.TemplateVersionList (TemplateNameLabel ++ "=" ++ toDelete))) with ⟨r, s2⟩
  rw [hc] at hlog hall
  simp only at hlog hall
  cases r with
  | some err =>
    refine ⟨dels, [], ?_, Or.inl rfl, fun h => by simp at h⟩
    simp only
    rw [hlog]; simp [St.call]
  | none =>
    have hdone := hall rfl
    have hlog2 : (s2.call (Call.TemplateDelete toDelete)).log =
        s.log ++ (Call.TemplateVersionList (TemplateNameLabel ++ "=" ++ toDelete) ::
          dels.map Call.TemplateVersionDelete ++ [Call.TemplateDelete toDelete]) := by
      simp [St.call, hlog]
    have hgoal : ∀ r : Option Err, ∃ (dels : List String) (last : List Call),
        (r, s2.call (Call.TemplateDelete toDelete)).2.log =
          s.log ++ (Call.TemplateVersionList (TemplateNameLabel ++ "=" ++ toDelete) ::
            dels.map Call.TemplateVersionDelete ++ last) ∧
        (last = [] ∨ (last = [Call.TemplateDelete toDelete] ∧ ∀ ver ∈ items, ver.Name ∈ dels)) ∧
        ((r, s2.call (Call.TemplateDelete toDelete)).1 = none →
          last = [Call.TemplateDelete toDelete]) :=
      fun r => ⟨dels, [Call.TemplateDelete toDelete], hlog2,
        Or.inr ⟨rfl, fun ver hver => hdone ▸ hmem ver hver⟩, fun _ => rfl⟩
    dsimp only
    split
    · split
      · exact hgoal _
      · exact hgoal _
    · exact hgoal _

theorem deleteTemplate_grows (env : Env) (toDelete : String) (s : St) :
    Grows Call.inDeletePhase s (deleteTemplate env toDelete s).2 := by
  unfold deleteTemplate getTemplateVersion
  have h0 : Grows Call.inDeletePhase s
      (s.call (Call.TemplateVersionList (TemplateNameLabel ++ "=" ++ toDelete))) :=
    Grows.call _ _ trivial
  have hinner : ∀ names s1, Grows Call.inDeletePhase s1 (deleteTemplateVersions env names s1).2 := by
    intro names s1
    obtain ⟨dels, hlog, -, htag⟩ := deleteTemplateVersions_log env names s1
    refine ⟨⟨_, hlog, ?_⟩, fun t ht => htag ▸ ht⟩
    intro c hc
    obtain ⟨n, -, rfl⟩ := List.mem_map.mp hc
    trivial
  rcases hl : env.m.templateVersionList s.log (TemplateNameLabel ++ "=" ++ toDelete)
    with err | items
  · exact h0
  · have h1 := hinner
      (env.rt.rangeOrder (mapKeys (items.foldl (fun acc ver => mapSet acc ver.Name ()) [])))
      (s.call (Call.TemplateVersionList (TemplateNameLabel ++ "=" ++ toDelete)))
    simp only
    rcases hc : deleteTemplateVersions env
      (env.rt.rangeOrder (mapKeys (items.foldl (fun acc ver => mapSet acc ver.Name ()) [])))
      (s.call (Call.TemplateVersionList (TemplateNameLabel ++ "=" ++ toDelete))) with ⟨r, s2⟩
    rw [hc] at h1
    cases r with
    | some err => exact h0.trans h1
    | none =>
      have h2 : Grows Call.inDeletePhase s2 (s2.call (Call.TemplateDelete toDelete)) :=
        Grows.call _ _ trivial
      dsimp only
      split
      · split <;> exact (h0.trans h1).trans h2
      · exact (h0.trans h1).trans h2

theorem deleteTemplates_grows (env : Env) (names : List String) (s : St) :
    Grows Call.inDeletePhase s (deleteTemplates env names s).2 := by
  induction names generalizing s with
  | nil => exact Grows.refl _ _
  | cons n rest ih =>
    have h1 := deleteTemplate_grows env n s
    unfold deleteTemplates
    split
    · rename_i hc; rw [hc] at h1; exact h1
    · rename_i s1 hc; rw [hc] at h1
      exact h1.trans (ih s1)

theorem deleteTemplate_tolerant (env : Env)
    (hl : ∀ log sel, ∃ items, env.m.templateVersionList log sel = .ok items)
    (hv : ∀ log name err, env.m.templateVersionDelete log name = some err →
      IsNotFound err = true)
    (ht : ∀ log name err, env.m.templateDelete log name = some err → IsNotFound err = true)
    (toDelete : String) (s : St) : (deleteTemplate env toDelete s).1 = none := by
  unfold deleteTemplate getTemplateVersion
  obtain ⟨items, hitems⟩ := hl s.log (TemplateNameLabel ++ "=" ++ toDelete)
  simp only [hitems]
  have h1 := deleteTemplateVersions_tolerant env hv
    (env.rt.rangeOrder (mapKeys (items.foldl (fun acc ver => mapSet acc ver.Name ()) [])))
    (s.call (Call.TemplateVersionList (TemplateNameLabel ++ "=" ++ toDelete)))
  rcases hc : deleteTemplateVersions env
    (env.rt.rangeOrder (mapKeys (items.foldl (fun acc ver => mapSet acc ver.Name ()) [])))
    (s.call (Call.TemplateVersionList (TemplateNameLabel ++ "=" ++ toDelete))) with ⟨r, s2⟩
  rw [hc] at h1
  simp only at h1
  subst h1
  dsimp only
  split
  · rename_i err herr
    simp [ht _ _ _ herr]
  · rfl

/-- C9: in an iteration of the delete phase of `update` the Delete of the Template
record comes last, after a Delete of every TemplateVersion child listed for the
template; and when the deletes fail with nothing but "not found", the delete phase
does not fail and issues the Delete of every template marked for deletion. -/
theorem delete_phase (env : Env) :
    (∀ toDelete s items,
      env.m.templateVersionList s.log (TemplateNameLabel ++ "=" ++ toDelete) = .ok items →
      ∃ ext, (deleteTemplate env toDelete s).2.log = s.log ++ ext ∧
        ∀ pre post, ext = pre ++ Call.TemplateDelete toDelete :: post →
          post = [] ∧ ∀ ver ∈ items, Call.TemplateVersionDelete ver.Name ∈ pre) ∧
    ((∀ log sel, ∃ items, env.m.templateVersionList log sel = .ok items) →
      (∀ log name err, env.m.templateVersionDelete log name = some err →
        IsNotFound err = true) →
      (∀ log name err, env.m.templateDelete log name = some err → IsNotFound err = true) →
      ∀ toDeleteTemplate s, (deleteTemplates env toDeleteTemplate s).1 = none ∧
        ∀ n ∈ toDeleteTemplate,
          Call.TemplateDelete n ∈ (deleteTemplates env toDeleteTemplate s).2.log) := by
  constructor
  · intro toDelete s items hlist
    obtain ⟨dels, last, hlog, hlast, -⟩ := deleteTemplate_log env toDelete s items hlist
    refine ⟨_, hlog, ?_⟩
    intro pre post hsplit
    have hnot : Call.TemplateDelete toDelete ∉
        Call.TemplateVersionList (TemplateNameLabel ++ "=" ++ toDelete) ::
          dels.map Call.TemplateVersionDelete := by
      simp
    rcases hlast with rfl | ⟨rfl, hmem⟩
    · rw [List.append_nil] at hsplit
      exact absurd (hsplit ▸ (List.mem_append_right pre (List.mem_cons_self _ _))) hnot
    · obtain ⟨hpre, hpost⟩ := append_singleton_split _ pre post _ hnot hsplit
      refine ⟨hpost, fun ver hver => ?_⟩
      rw [hpre]
      exact List.mem_cons_of_mem _ (List.mem_map_of_mem _ (hmem ver hver))
  · intro hl hv ht names
    induction names with
    | nil => intro s; exact ⟨rfl, by simp⟩
    | cons n rest ih =>
      intro s
      have h1 := deleteTemplate_tolerant env hl hv ht n s
      obtain ⟨items, hitems⟩ := hl s.log (TemplateNameLabel ++ "=" ++ n)
      obtain ⟨dels, last, hlog, -, hlast⟩ := deleteTemplate_log env n s items hitems
      have hlast2 := hlast h1
      subst hlast2
      rcases hc : deleteTemplate env n s with ⟨r, s1⟩
      rw [hc] at h1 hlog
      simp only at h1 hlog
      subst h1
      obtain ⟨hnone, hin⟩ := ih s1
      have hstep : deleteTemplates env (n :: rest) s = deleteTemplates env rest s1 := by
        conv_lhs => unfold deleteTemplates
        rw [hc]
      rw [hstep]
      refine ⟨hnone, fun m hm => ?_⟩
      rcases List.mem_cons.mp hm with rfl | hm
      · obtain ⟨⟨ext, hext, -⟩, -⟩ := deleteTemplates_grows env rest s1
        rw [hext, hlog]
        simp
      · exact hin m hm

/-- C9, witness: stores that list one child and answer every delete "not found". -/
theorem delete_phase_witness :
    (deleteTemplates missingEnv ["T1"] emptySt).1 = none ∧
    (deleteTemplates missingEnv ["T1"] emptySt).2.log =
      [Call.TemplateVersionList "catalog.cattle.io/template_name=T1",
       Call.TemplateVersionDelete "T1-1.0", Call.TemplateDelete "T1"] ∧
    ∀ n ∈ ["T1"], Call.TemplateDelete n ∈ (deleteTemplates missingEnv ["T1"] emptySt).2.log :=
  ⟨((delete_phase missingEnv).2 (fun _ _ => ⟨_, rfl⟩) (fun _ _ err h => by cases h; rfl)
      (fun _ _ err h => by cases h; rfl) ["T1"] emptySt).1, rfl,
   ((delete_phase missingEnv).2 (fun _ _ => ⟨_, rfl⟩) (fun _ _ err h => by cases h; rfl)
      (fun _ _ err h => by cases h; rfl) ["T1"] emptySt).2⟩

/-! ## Versions deleted by updateTemplate (C10) -/

theorem mapSet_new {V : Type} (m : GoMap V) (k : String) (v : V) (h : k ∉ mapKeys m) :
    mapSet m k v = m ++ [(k, v)] := by
  simp [mapSet, h]

theorem foldl_mapSet_nodup {α V : Type} (key : α → String) (val : α → V) (items : List α)
    (acc : GoMap V) (hnodup : (items.map key).Nodup)
    (hdisj : ∀ x ∈ items, key x ∉ mapKeys acc) :
    items.foldl (fun a x => mapSet a (key x) (val x)) acc =
      acc ++ items.map (fun x => (key x, val x)) := by
  induction items generalizing acc with
  | nil => simp
  | cons y rest ih =>
    simp only [List.map_cons, List.nodup_cons] at hnodup
    simp only [List.foldl_cons]
    rw [mapSet_new acc (key y) (val y) (hdisj y (List.mem_cons_self _ _))]
    rw [ih _ hnodup.2]
    · simp
    · intro x hx
      simp only [mapKeys, List.map_append, List.map_cons, List.map_nil, List.mem_append,
        List.mem_singleton, not_or]
      refine ⟨hdisj x (List.mem_cons_of_mem _ hx), ?_⟩
      intro heq
      exact hnodup.1 (heq ▸ List.mem_map_of_mem key hx)

theorem tvByVersionOf_nodup (items : List TemplateVersion)
    (hnodup : (items.map (fun tv => tv.Spec.Version)).Nodup) :
    tvByVersionOf items = items.map (fun tv => (tv.Spec.Version, tv)) := by
  unfold tvByVersionOf
  rw [foldl_mapSet_nodup (fun tv : TemplateVersion => tv.Spec.Version) (fun tv => tv) items []
    hnodup (by simp [mapKeys])]
  simp

/-- The calls of the second loop of `updateTemplate` when it ends without error: the
deletes of the records whose version string is not kept, in the order visited. -/
theorem deleteStaleVersions_log (env : Env) (keep : List String)
    (l : List (String × TemplateVersion)) (s s1 : St)
    (h : deleteStaleVersions env keep l s = (none, s1)) :
    s1.log = s.log ++
      (l.filter (fun e => decide (e.1 ∉ keep))).map (fun e => Call.TemplateVersionDelete e.2.Name) := by
  induction l generalizing s with
  | nil =>
    unfold deleteStaleVersions at h
    cases h
    simp
  | cons e rest ih =>
    obtain ⟨v, tv⟩ := e
    unfold deleteStaleVersions at h
    by_cases hk : v ∈ keep
    · simp only [hk, not_true_eq_false, if_false] at h
      rw [ih s h]
      simp [hk]
    · simp only [hk, not_false_eq_true, if_true] at h
      have hcont : ∀ hh : deleteStaleVersions env keep rest
          (s.call (Call.TemplateVersionDelete tv.Name)) = (none, s1),
          s1.log = s.log ++ (((v, tv) :: rest).filter (fun e => decide (e.1 ∉ keep))).map
            (fun e => Call.TemplateVersionDelete e.2.Name) := by
        intro hh
        rw [ih _ hh]
        simp [hk, St.call]
      split at h
      · split at h
        · cases h
        · exact hcont h
      · exact hcont h

theorem filter_eq_nil_of_grows {P : Call → Prop} (f : Call → Bool) (ext : List Call)
    (h : ∀ c ∈ ext, P c) (hP : ∀ c, P c → f c = false) : ext.filter f = [] := by
  rw [List.filter_eq_nil_iff]
  intro c hc
  simp [hP c (h c hc)]

/-- C10: when `updateTemplate` succeeds, over existing children of distinct version
strings, the TemplateVersion Deletes it issued are exactly those of the existing
children whose version string is absent from the desired version list: each such child
is deleted, and every Delete issued names such a child. -/
theorem updateTemplate_deletes (env : Env) (template toUpdate : Template) (s : St)
    (items : List TemplateVersion)
    (hlist : env.m.templateVersionList s.log (TemplateNameLabel ++ "=" ++ template.Name) =
      .ok items)
    (hnodup : (items.map (fun tv => tv.Spec.Version)).Nodup)
    (hok : (updateTemplate env template toUpdate s).1 = none) :
    ∃ ext, (updateTemplate env template toUpdate s).2.log = s.log ++ ext ∧
      List.Perm (ext.filter Call.isTemplateVersionDelete)
        ((items.filter (fun tv =>
            decide (tv.Spec.Version ∉ toUpdate.Spec.Versions.map (fun v => v.Version)))).map
          (fun tv => Call.TemplateVersionDelete tv.Name)) ∧
      (∀ tv ∈ items, tv.Spec.Version ∉ toUpdate.Spec.Versions.map (fun v => v.Version) →
        Call.TemplateVersionDelete tv.Name ∈ ext) ∧
      (∀ name, Call.TemplateVersionDelete name ∈ ext →
        ∃ tv ∈ items, tv.Name = name ∧
          tv.Spec.Version ∉ toUpdate.Spec.Versions.map (fun v => v.Version)) := by
  have hmain : ∃ ext, (updateTemplate env template toUpdate s).2.log = s.log ++ ext ∧
      List.Perm (ext.filter Call.isTemplateVersionDelete)
        ((items.filter (fun tv =>
            decide (tv.Spec.Version ∉ toUpdate.Spec.Versions.map (fun v => v.Version)))).map
          (fun tv => Call.TemplateVersionDelete tv.Name)) := by
    unfold updateTemplate at hok ⊢
    simp only [hlist] at hok ⊢
    have g1 := updateTemplateVersions_grows env template (tvByVersionOf items)
      toUpdate.Spec.Versions
      (s.call (Call.TemplateVersionList (TemplateNameLabel ++ "=" ++ template.Name)))
    rcases h1 : updateTemplateVersions env template (tvByVersionOf items)
      toUpdate.Spec.Versions
      (s.call (Call.TemplateVersionList (TemplateNameLabel ++ "=" ++ template.Name)))
      with ⟨r1, s2⟩
    rw [h1] at g1
    simp only [h1] at hok ⊢
    cases r1 with
    | some err => simp at hok
    | none =>
      simp only at hok ⊢
      rcases h2 : deleteStaleVersions env (toUpdate.Spec.Versions.map (fun v => v.Version))
        (env.rt.rangeOrder (tvByVersionOf items)) s2 with ⟨r2, s3⟩
      simp only [h2] at hok ⊢
      cases r2 with
      | some err => simp at hok
      | none =>
        simp only at hok ⊢
        have hdel := deleteStaleVersions_log env _ _ s2 s3 h2
        have g3 := convertTemplateIcon_grows env
          { template with Spec := { toUpdate.Spec with
              Versions := toUpdate.Spec.Versions.map stripVersion } } s3
        rcases h3 : convertTemplateIcon env
          { template with Spec := { toUpdate.Spec with
              Versions := toUpdate.Spec.Versions.map stripVersion } } s3 with ⟨r3, s4⟩
        rw [h3] at g3
        simp only [h3] at hok ⊢
        cases r3 with
        | error err => simp at hok
        | ok t2 =>
          simp only at hok ⊢
          obtain ⟨⟨ext1, hl1, hp1⟩, -⟩ := g1
          obtain ⟨⟨ext3, hl3, hp3⟩, -⟩ := g3
          simp only at hl1 hl3
          have hlog : ∀ r : Option Err,
              (r, s4.call (Call.TemplateUpdate t2)).2.log = s.log ++
                ([Call.TemplateVersionList (TemplateNameLabel ++ "=" ++ template.Name)] ++ ext1 ++
                  ((env.rt.rangeOrder (tvByVersionOf items)).filter (fun e =>
                    decide (e.1 ∉ toUpdate.Spec.Versions.map (fun v => v.Version)))).map
                    (fun e => Call.TemplateVersionDelete e.2.Name) ++ ext3 ++
                  [Call.TemplateUpdate t2]) := by
            intro r
            simp [St.call, hl3, hdel, hl1]
          have hf1 : ext1.filter Call.isTemplateVersionDelete = [] :=
            filter_eq_nil_of_grows _ ext1 hp1 (fun c hc => hc.2)
          have hf3 : ext3.filter Call.isTemplateVersionDelete = [] :=
            filter_eq_nil_of_grows _ ext3 hp3 (fun c hc => by
              cases c <;> simp_all [Call.isContentCreate, Call.isTemplateVersionDelete])
          have hperm : List.Perm
              (((env.rt.rangeOrder (tvByVersionOf items)).filter (fun e =>
                decide (e.1 ∉ toUpdate.Spec.Versions.map (fun v => v.Version)))).map
                (fun e => Call.TemplateVersionDelete e.2.Name))
              ((items.filter (fun tv =>
                decide (tv.Spec.Version ∉ toUpdate.Spec.Versions.map (fun v => v.Version)))).map
                (fun tv => Call.TemplateVersionDelete tv.Name)) := by
            have hp := ((env.rt.rangeOrder_perm (tvByVersionOf items)).filter (fun e =>
                decide (e.1 ∉ toUpdate.Spec.Versions.map (fun v => v.Version)))).map
                (fun e => Call.TemplateVersionDelete e.2.Name)
            rw [tvByVersionOf_nodup items hnodup] at hp ⊢
            refine hp.trans ?_
            rw [List.filter_map, List.map_map]
            exact List.Perm.refl _
          have hfilt : ∀ (l : List (String × TemplateVersion)),
              (l.map (fun e => Call.TemplateVersionDelete e.2.Name)).filter
                Call.isTemplateVersionDelete = l.map (fun e => Call.TemplateVersionDelete e.2.Name) := by
            intro l
            rw [List.filter_eq_self]
            intro c hc
            obtain ⟨e, -, rfl⟩ := List.mem_map.mp hc
            rfl
          have hres : ∀ r : Option Err, ∃ ext,
              (r, s4.call (Call.TemplateUpdate t2)).2.log = s.log ++ ext ∧
              List.Perm (ext.filter Call.isTemplateVersionDelete)
                ((items.filter (fun tv =>
                  decide (tv.Spec.Version ∉ toUpdate.Spec.Versions.map (fun v => v.Version)))).map
                  (fun tv => Call.TemplateVersionDelete tv.Name)) := by
            intro r
            refine ⟨_, hlog r, ?_⟩
            simp only [List.filter_append, hf1, hf3, hfilt, List.append_nil]
            simpa [List.filter, Call.isTemplateVersionDelete] using hperm
          split
          · exact hres _
          · exact hres _
  obtain ⟨ext, hlog, hperm⟩ := hmain
  refine ⟨ext, hlog, hperm, ?_, ?_⟩
  · intro tv htv hv
    have : Call.TemplateVersionDelete tv.Name ∈ ext.filter Call.isTemplateVersionDelete := by
      rw [hperm.mem_iff]
      exact List.mem_map_of_mem _ (List.mem_filter.mpr ⟨htv, by simpa using hv⟩)
    exact (List.mem_filter.mp this).1
  · intro name hname
    have : Call.TemplateVersionDelete name ∈ ext.filter Call.isTemplateVersionDelete :=
      List.mem_filter.mpr ⟨hname, rfl⟩
    rw [hperm.mem_iff] at this
    obtain ⟨tv, htv, heq⟩ := List.mem_map.mp this
    obtain ⟨hin, hv⟩ := List.mem_filter.mp htv
    simp only [Call.TemplateVersionDelete.injEq] at heq
    exact ⟨tv, hin, heq, by simpa using hv⟩

/-- C10, witness: of the stored versions `1.0` and `0.9` the desired template keeps `1.0`. -/
theorem updateTemplate_deletes_witness :
    (List.map (fun tv => tv.Spec.Version) [storedVersion, staleVersion]).Nodup ∧
    (updateTemplate staleEnv helloTemplate helloTemplate emptySt).1 = none ∧
    ∃ ext, (updateTemplate staleEnv helloTemplate helloTemplate emptySt).2.log =
        emptySt.log ++ ext ∧
      List.Perm (ext.filter Call.isTemplateVersionDelete)
        (([storedVersion, staleVersion].filter (fun tv =>
            decide (tv.Spec.Version ∉ helloTemplate.Spec.Versions.map (fun v => v.Version)))).map
          (fun tv => Call.TemplateVersionDelete tv.Name)) ∧
      (∀ tv ∈ [storedVersion, staleVersion],
        tv.Spec.Version ∉ helloTemplate.Spec.Versions.map (fun v => v.Version) →
        Call.TemplateVersionDelete tv.Name ∈ ext) ∧
      (∀ name, Call.TemplateVersionDelete name ∈ ext →
        ∃ tv ∈ [storedVersion, staleVersion], tv.Name = name ∧
          tv.Spec.Version ∉ helloTemplate.Spec.Versions.map (fun v => v.Version)) :=
  ⟨by decide, rfl,
   updateTemplate_deletes staleEnv helloTemplate helloTemplate emptySt
     [storedVersion, staleVersion] rfl (by decide) rfl⟩

/-! ## The reconcile loop of update -/

theorem reconcileTemplate_grows (env : Env) (catalog : Catalog) (templateMap : GoMap Template)
    (template : Template) (s : St) :
    Grows (fun c => c.isCatalogUpdate = false) s
      (reconcileTemplate env catalog templateMap template s).2 := by
  unfold reconcileTemplate
  split
  · exact (updateTemplate_grows env _ template s).mono (fun c hc => by
      cases c <;> simp_all [Call.inUpdateTemplate, Call.isCatalogUpdate])
  · exact (createTemplate_grows env template catalog s).mono (fun c hc => by
      cases c <;> simp_all [Call.inCreateTemplate, Call.isCatalogUpdate])

theorem reconcileStep_st (env : Env) (catalog : Catalog) (templateMap : GoMap Template)
    (p : Pass) (template : Template) :
    (reconcileStep env catalog templateMap p template).st =
      (reconcileTemplate env catalog templateMap template p.st).2 := by
  unfold reconcileStep
  split <;> (rename_i h; rw [h])

theorem reconcileTemplates_cons (env : Env) (catalog : Catalog) (templateMap : GoMap Template)
    (t : Template) (rest : List Template) (p : Pass) :
    reconcileTemplates env catalog templateMap (t :: rest) p =
      reconcileTemplates env catalog templateMap rest
        (reconcileStep env catalog templateMap p t) := rfl

theorem reconcileTemplates_append (env : Env) (catalog : Catalog) (templateMap : GoMap Template)
    (pre post : List Template) (p : Pass) :
    reconcileTemplates env catalog templateMap (pre ++ post) p =
      reconcileTemplates env catalog templateMap post
        (reconcileTemplates env catalog templateMap pre p) := by
  simp [reconcileTemplates, List.foldl_append]

theorem reconcileTemplates_grows (env : Env) (catalog : Catalog) (templateMap : GoMap Template)
    (templates : List Template) (p : Pass) :
    Grows (fun c => c.isCatalogUpdate = false) p.st
      (reconcileTemplates env catalog templateMap templates p).st := by
  induction templates generalizing p with
  | nil => exact Grows.refl _ _
  | cons t rest ih =>
    rw [reconcileTemplates_cons]
    have h1 := reconcileTemplate_grows env catalog templateMap t p.st
    rw [← reconcileStep_st] at h1
    exact h1.trans (ih _)

theorem mapGet_mapDelete {V : Type} (m : GoMap V) (k : String) :
    mapGet (mapDelete m k) k = none := by
  induction m with
  | nil => rfl
  | cons e rest ih =>
    obtain ⟨k1, v1⟩ := e
    by_cases h : k1 = k
    · simpa [mapDelete, h] using ih
    · simpa [mapDelete, h, mapGet] using ih

theorem mapGet_mapDelete_none {V : Type} (m : GoMap V) (k k2 : String)
    (h : mapGet m k = none) : mapGet (mapDelete m k2) k = none := by
  induction m with
  | nil => rfl
  | cons e rest ih =>
    obtain ⟨k1, v1⟩ := e
    unfold mapGet at h
    split_ifs at h with hk
    by_cases h2 : k1 = k2
    · simpa [mapDelete, h2] using ih h
    · simp only [mapDelete, ne_eq, h2, not_false_eq_true, decide_True, List.filter_cons_of_pos]
      unfold mapGet
      simp only [hk, if_false]
      simpa [mapDelete] using ih h

/-- Along the reconcile loop the collected errors only grow and a key missing from
the version-commit map stays missing. -/
theorem reconcileTemplates_keeps (env : Env) (catalog : Catalog) (templateMap : GoMap Template)
    (templates : List Template) (p : Pass) :
    (p.errs ≠ [] → (reconcileTemplates env catalog templateMap templates p).errs ≠ []) ∧
    ∀ k, mapGet p.versionCommits k = none →
      mapGet (reconcileTemplates env catalog templateMap templates p).versionCommits k = none := by
  induction templates generalizing p with
  | nil => exact ⟨fun h => h, fun _ h => h⟩
  | cons t rest ih =>
    rw [reconcileTemplates_cons]
    obtain ⟨ih1, ih2⟩ := ih (reconcileStep env catalog templateMap p t)
    constructor
    · intro h
      apply ih1
      unfold reconcileStep
      split
      · simp
      · exact h
    · intro k hk
      apply ih2
      unfold reconcileStep
      split
      · exact mapGet_mapDelete_none _ _ _ hk
      · exact hk

/-- A template that fails at its turn leaves an error in the list and no entry of
its display name in the version-commit map. -/
theorem reconcileTemplates_failed (env : Env) (catalog : Catalog) (templateMap : GoMap Template)
    (p : Pass) (pre post : List Template) (A : Template)
    (hfail : (outcomeAt env catalog templateMap p pre A).1 ≠ none) :
    (reconcileTemplates env catalog templateMap (pre ++ A :: post) p).errs ≠ [] ∧
    mapGet (reconcileTemplates env catalog templateMap (pre ++ A :: post) p).versionCommits
      A.Spec.DisplayName = none := by
  rw [reconcileTemplates_append, reconcileTemplates_cons]
  obtain ⟨h1, h2⟩ := reconcileTemplates_keeps env catalog templateMap post
    (reconcileStep env catalog templateMap (reconcileTemplates env catalog templateMap pre p) A)
  unfold outcomeAt at hfail
  have hstep : (reconcileStep env catalog templateMap
      (reconcileTemplates env catalog templateMap pre p) A).errs ≠ [] ∧
      mapGet (reconcileStep env catalog templateMap
        (reconcileTemplates env catalog templateMap pre p) A).versionCommits
        A.Spec.DisplayName = none := by
    unfold reconcileStep
    split
    · exact ⟨by simp, mapGet_mapDelete _ _⟩
    · rename_i h
      rw [h] at hfail
      exact absurd rfl hfail
  exact ⟨h1 hstep.1, h2 _ hstep.2⟩

/-- When no template fails at its turn, the loop collects no error and leaves the
version-commit map as it was. -/
theorem reconcileTemplates_clean (env : Env) (catalog : Catalog) (templateMap : GoMap Template)
    (templates : List Template) (p : Pass)
    (hok : ∀ pre A post, templates = pre ++ A :: post →
      (outcomeAt env catalog templateMap p pre A).1 = none) :
    (reconcileTemplates env catalog templateMap templates p).errs = p.errs ∧
    (reconcileTemplates env catalog templateMap templates p).versionCommits =
      p.versionCommits := by
  induction templates generalizing p with
  | nil => exact ⟨rfl, rfl⟩
  | cons t rest ih =>
    rw [reconcileTemplates_cons]
    have h0 := hok [] t rest rfl
    unfold outcomeAt at h0
    have hstep : (reconcileStep env catalog templateMap p t).errs = p.errs ∧
        (reconcileStep env catalog templateMap p t).versionCommits = p.versionCommits := by
      unfold reconcileStep
      split
      · rename_i h
        simp only [reconcileTemplates, List.foldl_nil] at h0
        rw [h] at h0
        simp at h0
      · exact ⟨rfl, rfl⟩
    have := ih (reconcileStep env catalog templateMap p t) (by
      intro pre A post hsplit
      have := hok (t :: pre) A post (by rw [hsplit]; rfl)
      unfold outcomeAt at this ⊢
      rw [reconcileTemplates_cons] at this
      exact this)
    rw [this.1, this.2]
    exact hstep

/-! ## The commit phase of update -/

theorem loadExisting_log (env : Env) (catalog : Catalog) (s : St) :
    ∃ ext, (loadExisting env catalog s).2.log = s.log ++ ext ∧
      ∀ c ∈ ext, c.isCatalogUpdate = false := by
  unfold loadExisting getTemplateMap
  rcases env.m.templateList s.log (CatalogNameLabel ++ "=" ++ catalog.Name) with err | items
  · exact ⟨[Call.TemplateList (CatalogNameLabel ++ "=" ++ catalog.Name)], rfl, by simp [Call.isCatalogUpdate]⟩
  · simp only
    split
    · exact ⟨[Call.TemplateList (CatalogNameLabel ++ "=" ++ catalog.Name), Call.TemplateContentList],
        by simp [St.call], by simp [Call.isCatalogUpdate]⟩
    · exact ⟨[Call.TemplateList (CatalogNameLabel ++ "=" ++ catalog.Name), Call.TemplateContentList],
        by simp [St.call], by simp [Call.isCatalogUpdate]⟩

/-- The catalog with the version-commit map attached, as the error path persists it. -/
theorem commitCatalog_failed (env : Env) (catalog : Catalog) (commit : String) (p : Pass)
    (h : p.errs ≠ []) :
    (commitCatalog env catalog commit p).catalog =
      { catalog with Status := { catalog.Status with HelmVersionCommits := p.versionCommits } } ∧
    (commitCatalog env catalog commit p).err ≠ none ∧
    (commitCatalog env catalog commit p).st =
      p.st.call (Call.CatalogUpdate (commitCatalog env catalog commit p).catalog) := by
  have hlen : p.errs.length > 0 := List.length_pos.mpr h
  unfold commitCatalog
  simp only [hlen, if_true]
  split <;> simp

/-- The catalog with the version-commit map, the refreshed condition and the commit
marker, as the success path persists it. -/
theorem commitCatalog_clean (env : Env) (catalog : Catalog) (commit : String) (p : Pass)
    (h : p.errs = []) :
    (commitCatalog env catalog commit p).catalog =
      { catalog with Status :=
        { Conditions := mapSet catalog.Status.Conditions "Refreshed" "True",
          Commit := commit,
          HelmVersionCommits := p.versionCommits } } ∧
    ((commitCatalog env catalog commit p).err = none ↔
      ∃ r, env.m.catalogUpdate p.st.log (commitCatalog env catalog commit p).catalog = .ok r) ∧
    (commitCatalog env catalog commit p).st =
      p.st.call (Call.CatalogUpdate (commitCatalog env catalog commit p).catalog) := by
  unfold commitCatalog
  simp only [h, List.length_nil, gt_iff_lt, lt_self_iff_false, if_false,
    CatalogConditionRefreshed_True]
  split
  · rename_i err herr
    refine ⟨rfl, ?_, rfl⟩
    simp only [herr]
    simp
  · rename_i r herr
    refine ⟨rfl, ?_, rfl⟩
    simp only [herr]
    simp

theorem update_eq_commit (env : Env) (catalog : Catalog) (templates : List Template)
    (toDeleteTemplate : List String) (versionCommits : GoMap VersionCommits)
    (commit : String) (log : List Call) (s1 s2 : St) (templateMap : GoMap Template)
    (hdel : deleteTemplates env toDeleteTemplate { log := log, tagMap := [] } = (none, s1))
    (hload : loadExisting env catalog s1 = (.ok templateMap, s2)) :
    update env catalog templates toDeleteTemplate versionCommits commit log =
      commitCatalog env catalog commit
        (reconcileTemplates env catalog templateMap templates
          { st := s2, versionCommits := versionCommits, errs := [] }) := by
  simp only [update, hdel, hload]

/-- The calls of `update` up to the end of the reconcile loop, none of them a persist
of the Catalog. -/
theorem update_before_commit (env : Env) (catalog : Catalog) (templates : List Template)
    (toDeleteTemplate : List String) (versionCommits : GoMap VersionCommits)
    (log : List Call) (s1 s2 : St) (templateMap : GoMap Template)
    (hdel : deleteTemplates env toDeleteTemplate { log := log, tagMap := [] } = (none, s1))
    (hload : loadExisting env catalog s1 = (.ok templateMap, s2)) :
    ∃ ext, (reconcileTemplates env catalog templateMap templates
        { st := s2, versionCommits := versionCommits, errs := [] }).st.log = log ++ ext ∧
      ∀ c ∈ ext, c.isCatalogUpdate = false := by
  obtain ⟨⟨e1, hl1, hp1⟩, -⟩ := deleteTemplates_grows env toDeleteTemplate { log := log, tagMap := [] }
  rw [hdel] at hl1
  obtain ⟨e2, hl2, hp2⟩ := loadExisting_log env catalog s1
  rw [hload] at hl2
  obtain ⟨⟨e3, hl3, hp3⟩, -⟩ := reconcileTemplates_grows env catalog templateMap templates
    { st := s2, versionCommits := versionCommits, errs := [] }
  simp only at hl1 hl2 hl3
  refine ⟨e1 ++ e2 ++ e3, by rw [hl3, hl2, hl1]; simp, ?_⟩
  intro c hc
  simp only [List.mem_append] at hc
  rcases hc with (hc | hc) | hc
  · have := hp1 c hc
    cases c <;> simp_all [Call.inDeletePhase, Call.isCatalogUpdate]
  · exact hp2 c hc
  · exact hp3 c hc

/-! ## Persists of the Catalog (C8) -/

/-- C8 (as amended): when the delete and load phases succeed, `update` persists the
Catalog exactly once, as its last call, in the success path and in the error path
alike; the one persist carries the assembled version-commit map, and in the success
path (no template failed) also the refreshed condition and the commit marker. -/
theorem update_persists_once (env : Env) (catalog : Catalog) (templates : List Template)
    (toDeleteTemplate : List String) (versionCommits : GoMap VersionCommits)
    (commit : String) (log : List Call) (s1 s2 : St) (templateMap : GoMap Template)
    (hdel : deleteTemplates env toDeleteTemplate { log := log, tagMap := [] } = (none, s1))
    (hload : loadExisting env catalog s1 = (.ok templateMap, s2)) :
    ∃ ext,
      (update env catalog templates toDeleteTemplate versionCommits commit log).st.log =
        log ++ ext ++ [Call.CatalogUpdate
          (update env catalog templates toDeleteTemplate versionCommits commit log).catalog] ∧
      (∀ c ∈ ext, c.isCatalogUpdate = false) ∧
      List.countP Call.isCatalogUpdate (ext ++ [Call.CatalogUpdate
          (update env catalog templates toDeleteTemplate versionCommits commit log).catalog]) = 1 ∧
      (update env catalog templates toDeleteTemplate versionCommits commit log).catalog.Status.HelmVersionCommits =
        (reconcileTemplates env catalog templateMap templates
          { st := s2, versionCommits := versionCommits, errs := [] }).versionCommits ∧
      ((∀ pre A post, templates = pre ++ A :: post →
          (outcomeAt env catalog templateMap
            { st := s2, versionCommits := versionCommits, errs := [] } pre A).1 = none) →
        (update env catalog templates toDeleteTemplate versionCommits commit log).catalog =
          { catalog with Status :=
            { Conditions := mapSet catalog.Status.Conditions "Refreshed" "True",
              Commit := commit,
              HelmVersionCommits := versionCommits } }) := by
  rw [update_eq_commit env catalog templates toDeleteTemplate versionCommits commit log s1 s2
    templateMap hdel hload]
  obtain ⟨ext, hlog, hext⟩ := update_before_commit env catalog templates toDeleteTemplate
    versionCommits log s1 s2 templateMap hdel hload
  have hcount : ∀ c, List.countP Call.isCatalogUpdate (ext ++ [Call.CatalogUpdate c]) = 1 := by
    intro c
    rw [List.countP_append]
    have : List.countP Call.isCatalogUpdate ext = 0 := by
      rw [List.countP_eq_zero]
      intro a ha
      simp [hext a ha]
    rw [this]
    rfl
  by_cases herrs : (reconcileTemplates env catalog templateMap templates
      { st := s2, versionCommits := versionCommits, errs := [] }).errs = []
  · obtain ⟨hcat, -, hst⟩ := commitCatalog_clean env catalog commit _ herrs
    refine ⟨ext, ?_, hext, hcount _, by rw [hcat], ?_⟩
    · rw [hst]; simp [St.call, hlog]
    · intro hok
      rw [hcat, (reconcileTemplates_clean env catalog templateMap templates _ hok).2]
  · obtain ⟨hcat, -, hst⟩ := commitCatalog_failed env catalog commit _ herrs
    refine ⟨ext, ?_, hext, hcount _, by rw [hcat], ?_⟩
    · rw [hst]; simp [St.call, hlog]
    · intro hok
      exact absurd (reconcileTemplates_clean env catalog templateMap templates _ hok).1 herrs

/-- C8, witness: the sync of one template against empty stores. -/
theorem update_persists_once_witness :
    deleteTemplates plainEnv [] { log := [], tagMap := [] } = (none, emptySt) ∧
    loadExisting plainEnv demoCatalog emptySt =
      (.ok [], { log := [Call.TemplateList "catalog.cattle.io/name=c", Call.TemplateContentList],
                 tagMap := [] }) ∧
    ∃ ext,
      (update plainEnv demoCatalog [helloTemplate] [] demoCommits "c1" []).st.log =
        [] ++ ext ++ [Call.CatalogUpdate
          (update plainEnv demoCatalog [helloTemplate] [] demoCommits "c1" []).catalog] ∧
      (∀ c ∈ ext, c.isCatalogUpdate = false) ∧
      List.countP Call.isCatalogUpdate (ext ++ [Call.CatalogUpdate
          (update plainEnv demoCatalog [helloTemplate] [] demoCommits "c1" []).catalog]) = 1 ∧
      (update plainEnv demoCatalog [helloTemplate] [] demoCommits "c1" []).catalog.Status.HelmVersionCommits =
        (reconcileTemplates plainEnv demoCatalog [] [helloTemplate]
          { st := { log := [Call.TemplateList "catalog.cattle.io/name=c",
                            Call.TemplateContentList], tagMap := [] },
            versionCommits := demoCommits, errs := [] }).versionCommits ∧
      ((∀ pre A post, [helloTemplate] = pre ++ A :: post →
          (outcomeAt plainEnv demoCatalog []
            { st := { log := [Call.TemplateList "catalog.cattle.io/name=c",
                              Call.TemplateContentList], tagMap := [] },
              versionCommits := demoCommits, errs := [] } pre A).1 = none) →
        (update plainEnv demoCatalog [helloTemplate] [] demoCommits "c1" []).catalog =
          { demoCatalog with Status :=
            { Conditions := mapSet demoCatalog.Status.Conditions "Refreshed" "True",
              Commit := "c1",
              HelmVersionCommits := demoCommits } }) :=
  ⟨rfl, rfl, update_persists_once plainEnv demoCatalog [helloTemplate] [] demoCommits "c1" []
    emptySt _ [] rfl rfl⟩

/-- C8, counterexample: a sync with no failing template returns no error and has
persisted the Catalog once, not twice. -/
theorem update_success_one_persist :
    (update plainEnv demoCatalog [helloTemplate] [] demoCommits "c1" []).err = none ∧
    List.countP Call.isCatalogUpdate
      (update plainEnv demoCatalog [helloTemplate] [] demoCommits "c1" []).st.log = 1 ∧
    (update plainEnv demoCatalog [helloTemplate] [] demoCommits "c1" []).st.log.getLast? =
      some (Call.CatalogUpdate
        { Name := "c",
          Status := { Conditions := [("Refreshed", "True")], Commit := "c1",
                      HelmVersionCommits := demoCommits } }) :=
  ⟨rfl, rfl, rfl⟩

/-! ## The refreshed condition (C3) -/

/-- C3: `update` marks the Catalog refreshed and records the commit marker only when
no desired template failed. When the delete or the load phase fails nothing is
persisted and the Catalog is as before; otherwise the Catalog persisted is the final
one, and when at least one template failed its refreshed condition and its commit
field are those it had before `update`, while with no failure the condition is true and
the commit is the new marker. -/
theorem update_refreshed (env : Env) (catalog : Catalog) (templates : List Template)
    (toDeleteTemplate : List String) (versionCommits : GoMap VersionCommits)
    (commit : String) (log : List Call) :
    (∀ err s1, deleteTemplates env toDeleteTemplate { log := log, tagMap := [] } = (some err, s1) →
      (update env catalog templates toDeleteTemplate versionCommits commit log).catalog = catalog ∧
      ∃ ext, (update env catalog templates toDeleteTemplate versionCommits commit log).st.log =
          log ++ ext ∧ ∀ c ∈ ext, c.isCatalogUpdate = false) ∧
    (∀ s1 err s2, deleteTemplates env toDeleteTemplate { log := log, tagMap := [] } = (none, s1) →
      loadExisting env catalog s1 = (.error err, s2) →
      (update env catalog templates toDeleteTemplate versionCommits commit log).catalog = catalog ∧
      ∃ ext, (update env catalog templates toDeleteTemplate versionCommits commit log).st.log =
          log ++ ext ∧ ∀ c ∈ ext, c.isCatalogUpdate = false) ∧
    (∀ s1 templateMap s2,
      deleteTemplates env toDeleteTemplate { log := log, tagMap := [] } = (none, s1) →
      loadExisting env catalog s1 = (.ok templateMap, s2) →
      (∃ ext, (update env catalog templates toDeleteTemplate versionCommits commit log).st.log =
          log ++ ext ++ [Call.CatalogUpdate
            (update env catalog templates toDeleteTemplate versionCommits commit log).catalog] ∧
        ∀ c ∈ ext, c.isCatalogUpdate = false) ∧
      ((∃ pre A post, templates = pre ++ A :: post ∧
          (outcomeAt env catalog templateMap
            { st := s2, versionCommits := versionCommits, errs := [] } pre A).1 ≠ none) →
        (update env catalog templates toDeleteTemplate versionCommits commit log).catalog.Status.Conditions =
          catalog.Status.Conditions ∧
        (update env catalog templates toDeleteTemplate versionCommits commit log).catalog.Status.Commit =
          catalog.Status.Commit ∧
        (update env catalog templates toDeleteTemplate versionCommits commit log).err ≠ none) ∧
      ((∀ pre A post, templates = pre ++ A :: post →
          (outcomeAt env catalog templateMap
            { st := s2, versionCommits := versionCommits, errs := [] } pre A).1 = none) →
        (update env catalog templates toDeleteTemplate versionCommits commit log).catalog.Status.Conditions =
          mapSet catalog.Status.Conditions "Refreshed" "True" ∧
        (update env catalog templates toDeleteTemplate versionCommits commit log).catalog.Status.Commit =
          commit)) := by
  refine ⟨?_, ?_, ?_⟩
  · intro err s1 hdel
    obtain ⟨⟨e1, hl1, hp1⟩, -⟩ := deleteTemplates_grows env toDeleteTemplate
      { log := log, tagMap := [] }
    rw [hdel] at hl1
    simp only [update, hdel]
    refine ⟨trivial, e1, hl1, fun c hc => ?_⟩
    have := hp1 c hc
    cases c <;> simp_all [Call.inDeletePhase, Call.isCatalogUpdate]
  · intro s1 err s2 hdel hload
    obtain ⟨⟨e1, hl1, hp1⟩, -⟩ := deleteTemplates_grows env toDeleteTemplate
      { log := log, tagMap := [] }
    rw [hdel] at hl1
    obtain ⟨e2, hl2, hp2⟩ := loadExisting_log env catalog s1
    rw [hload] at hl2
    simp only [update, hdel, hload]
    simp only at hl1 hl2
    refine ⟨trivial, e1 ++ e2, by rw [hl2, hl1]; simp, fun c hc => ?_⟩
    rcases List.mem_append.mp hc with hc | hc
    · have := hp1 c hc
      cases c <;> simp_all [Call.inDeletePhase, Call.isCatalogUpdate]
    · exact hp2 c hc
  · intro s1 templateMap s2 hdel hload
    rw [update_eq_commit env catalog templates toDeleteTemplate versionCommits commit log s1 s2
      templateMap hdel hload]
    obtain ⟨ext, hlog, hext⟩ := update_before_commit env catalog templates toDeleteTemplate
      versionCommits log s1 s2 templateMap hdel hload
    refine ⟨?_, ?_, ?_⟩
    · by_cases herrs : (reconcileTemplates env catalog templateMap templates
          { st := s2, versionCommits := versionCommits, errs := [] }).errs = []
      · obtain ⟨-, -, hst⟩ := commitCatalog_clean env catalog commit _ herrs
        exact ⟨ext, by rw [hst]; simp [St.call, hlog], hext⟩
      · obtain ⟨-, -, hst⟩ := commitCatalog_failed env catalog commit _ herrs
        exact ⟨ext, by rw [hst]; simp [St.call, hlog], hext⟩
    · rintro ⟨pre, A, post, hsplit, hfail⟩
      subst hsplit
      obtain ⟨herrs, -⟩ := reconcileTemplates_failed env catalog templateMap
        { st := s2, versionCommits := versionCommits, errs := [] } pre post A hfail
      obtain ⟨hcat, herr, -⟩ := commitCatalog_failed env catalog commit _ herrs
      rw [hcat]
      exact ⟨rfl, rfl, herr⟩
    · intro hok
      obtain ⟨herrs, -⟩ := reconcileTemplates_clean env catalog templateMap templates
        { st := s2, versionCommits := versionCommits, errs := [] } hok
      obtain ⟨hcat, -, -⟩ := commitCatalog_clean env catalog commit _ herrs
      rw [hcat]
      exact ⟨rfl, rfl⟩

/-- C3, witness: the create of `T1` is refused, the sync of `T1` and `T2` leaves the
catalog unrefreshed at its old commit. -/
theorem update_refreshed_witness :
    deleteTemplates refusingEnv [] { log := [], tagMap := [] } = (none, emptySt) ∧
    loadExisting refusingEnv demoCatalog emptySt =
      (.ok [], { log := [Call.TemplateList "catalog.cattle.io/name=c", Call.TemplateContentList],
                 tagMap := [] }) ∧
    (update refusingEnv demoCatalog [helloTemplate, otherTemplate] [] demoCommits "c1"
        []).catalog.Status.Conditions = demoCatalog.Status.Conditions ∧
    (update refusingEnv demoCatalog [helloTemplate, otherTemplate] [] demoCommits "c1"
        []).catalog.Status.Commit = demoCatalog.Status.Commit ∧
    (update refusingEnv demoCatalog [helloTemplate, otherTemplate] [] demoCommits "c1"
        []).err ≠ none :=
  ⟨rfl, rfl,
   ((update_refreshed refusingEnv demoCatalog [helloTemplate, otherTemplate] [] demoCommits
      "c1" []).2.2 emptySt [] _ rfl rfl).2.1
      ⟨[], helloTemplate, [otherTemplate], rfl, by decide⟩⟩

/-! ## Isolation of a failing template (C2) -/

/-- A `createTemplate` that returns no error has issued the Create of the template. -/
theorem createTemplate_ok (env : Env) (template : Template) (catalog : Catalog) (s : St)
    (hok : (createTemplate env template catalog s).1 = none) :
    ∃ ext t, (createTemplate env template catalog s).2.log = s.log ++ ext ∧
      Call.TemplateCreate t ∈ ext ∧ t.Name = template.Name ∧
      t.Spec.DisplayName = template.Spec.DisplayName := by
  unfold createTemplate at hok ⊢
  dsimp only at hok ⊢
  have g1 := convertTemplateIcon_grows env
    { template with
      Labels := [(CatalogNameLabel, catalog.Name)],
      Spec := { template.Spec with Versions := template.Spec.Versions.map stripVersion } } s
  rcases h1 : convertTemplateIcon env
    { template with
      Labels := [(CatalogNameLabel, catalog.Name)],
      Spec := { template.Spec with Versions := template.Spec.Versions.map stripVersion } } s
    with ⟨r1, s1⟩
  rw [h1] at g1
  simp only [h1] at hok ⊢
  cases r1 with
  | error err => simp at hok
  | ok t2 =>
    simp only at hok ⊢
    obtain ⟨tag, content, -, -, ht2⟩ := convertTemplateIcon_ok env _ t2 s s1 h1
    obtain ⟨⟨e1, hl1, -⟩, -⟩ := g1
    simp only at hl1
    rcases h2 : env.m.templateCreate s1.log t2 with err | created
    · simp [h2] at hok
    · simp only [h2]
      obtain ⟨⟨e3, hl3, -⟩, -⟩ := createTemplateVersions_grows env template.Spec.Versions
        created (s1.call (Call.TemplateCreate t2))
      refine ⟨e1 ++ [Call.TemplateCreate t2] ++ e3, t2, ?_, by simp, by rw [ht2], by rw [ht2]⟩
      rw [hl3]
      simp [St.call, hl1]

/-- An `updateTemplate` that returns no error has issued the Update of the template. -/
theorem updateTemplate_ok (env : Env) (template toUpdate : Template) (s : St)
    (hok : (updateTemplate env template toUpdate s).1 = none) :
    ∃ ext t, (updateTemplate env template toUpdate s).2.log = s.log ++ ext ∧
      Call.TemplateUpdate t ∈ ext ∧ t.Name = template.Name ∧
      t.Spec.DisplayName = toUpdate.Spec.DisplayName := by
  unfold updateTemplate at hok ⊢
  dsimp only at hok ⊢
  rcases hlist : env.m.templateVersionList s.log (TemplateNameLabel ++ "=" ++ template.Name)
    with err | items
  · simp [hlist] at hok
  · simp only [hlist] at hok ⊢
    have g1 := updateTemplateVersions_grows env template (tvByVersionOf items)
      toUpdate.Spec.Versions
      (s.call (Call.TemplateVersionList (TemplateNameLabel ++ "=" ++ template.Name)))
    rcases h1 : updateTemplateVersions env template (tvByVersionOf items)
      toUpdate.Spec.Versions
      (s.call (Call.TemplateVersionList (TemplateNameLabel ++ "=" ++ template.Name)))
      with ⟨r1, s2⟩
    rw [h1] at g1
    simp only [h1] at hok ⊢
    cases r1 with
    | some err => simp at hok
    | none =>
      simp only at hok ⊢
      have g2 := deleteStaleVersions_grows env (toUpdate.Spec.Versions.map (fun v => v.Version))
        (env.rt.rangeOrder (tvByVersionOf items)) s2
      rcases h2 : deleteStaleVersions env (toUpdate.Spec.Versions.map (fun v => v.Version))
        (env.rt.rangeOrder (tvByVersionOf items)) s2 with ⟨r2, s3⟩
      rw [h2] at g2
      simp only [h2] at hok ⊢
      cases r2 with
      | some err => simp at hok
      | none =>
        simp only at hok ⊢
        have g3 := convertTemplateIcon_grows env
          { template with Spec := { toUpdate.Spec with
              Versions := toUpdate.Spec.Versions.map stripVersion } } s3
        rcases h3 : convertTemplateIcon env
          { template with Spec := { toUpdate.Spec with
              Versions := toUpdate.Spec.Versions.map stripVersion } } s3 with ⟨r3, s4⟩
        rw [h3] at g3
        simp only [h3] at hok ⊢
        cases r3 with
        | error err => simp at hok
        | ok t2 =>
          simp only at hok ⊢
          obtain ⟨tag, content, -, -, ht2⟩ := convertTemplateIcon_ok env _ t2 s3 s4 h3
          obtain ⟨⟨e1, hl1, -⟩, -⟩ := g1
          obtain ⟨⟨e2, hl2, -⟩, -⟩ := g2
          obtain ⟨⟨e3, hl3, -⟩, -⟩ := g3
          simp only at hl1 hl2 hl3
          have hres : ∀ r : Option Err, ∃ ext t,
              (r, s4.call (Call.TemplateUpdate t2)).2.log = s.log ++ ext ∧
              Call.TemplateUpdate t ∈ ext ∧ t.Name = template.Name ∧
              t.Spec.DisplayName = toUpdate.Spec.DisplayName := by
            intro r
            refine ⟨[Call.TemplateVersionList (TemplateNameLabel ++ "=" ++ template.Name)] ++
              e1 ++ e2 ++ e3 ++ [Call.TemplateUpdate t2], t2, ?_, by simp, by rw [ht2],
              by rw [ht2]⟩
            simp [St.call, hl3, hl2, hl1]
          split
          · exact hres _
          · exact hres _

/-- C2: in a pass of `update` whose delete and load phases succeed, if template `A`
fails at its turn and template `B` succeeds at its turn, then the calls of `B`'s
reconcile, with the Create (or Update) of `B`'s Template record among them, are part
of the pass, the version-commit map attached to the Catalog that is persisted last has
no entry under `A`'s display name, and `update` returns an error. -/
theorem update_isolates_failure (env : Env) (catalog : Catalog) (templates : List Template)
    (toDeleteTemplate : List String) (versionCommits : GoMap VersionCommits)
    (commit : String) (log : List Call) (s1 s2 : St) (templateMap : GoMap Template)
    (hdel : deleteTemplates env toDeleteTemplate { log := log, tagMap := [] } = (none, s1))
    (hload : loadExisting env catalog s1 = (.ok templateMap, s2))
    (preA postA : List Template) (A : Template) (hA : templates = preA ++ A :: postA)
    (hfail : (outcomeAt env catalog templateMap
      { st := s2, versionCommits := versionCommits, errs := [] } preA A).1 ≠ none)
    (preB postB : List Template) (B : Template) (hB : templates = preB ++ B :: postB)
    (hsucc : (outcomeAt env catalog templateMap
      { st := s2, versionCommits := versionCommits, errs := [] } preB B).1 = none) :
    (∃ callsB after t,
      (outcomeAt env catalog templateMap
        { st := s2, versionCommits := versionCommits, errs := [] } preB B).2.log =
        (reconcileTemplates env catalog templateMap preB
          { st := s2, versionCommits := versionCommits, errs := [] }).st.log ++ callsB ∧
      (update env catalog templates toDeleteTemplate versionCommits commit log).st.log =
        (reconcileTemplates env catalog templateMap preB
          { st := s2, versionCommits := versionCommits, errs := [] }).st.log ++ callsB ++ after ∧
      t.Spec.DisplayName = B.Spec.DisplayName ∧
      (mapGet templateMap B.Name = none → Call.TemplateCreate t ∈ callsB ∧ t.Name = B.Name) ∧
      (∀ existing, mapGet templateMap B.Name = some existing →
        Call.TemplateUpdate t ∈ callsB ∧ t.Name = existing.Name)) ∧
    mapGet (update env catalog templates toDeleteTemplate versionCommits commit
      log).catalog.Status.HelmVersionCommits A.Spec.DisplayName = none ∧
    (update env catalog templates toDeleteTemplate versionCommits commit log).st.log.getLast? =
      some (Call.CatalogUpdate
        (update env catalog templates toDeleteTemplate versionCommits commit log).catalog) ∧
    (update env catalog templates toDeleteTemplate versionCommits commit log).err ≠ none := by
  rw [update_eq_commit env catalog templates toDeleteTemplate versionCommits commit log s1 s2
    templateMap hdel hload]
  obtain ⟨herrs, hgone⟩ := reconcileTemplates_failed env catalog templateMap
    { st := s2, versionCommits := versionCommits, errs := [] } preA postA A hfail
  rw [← hA] at herrs hgone
  obtain ⟨hcat, herr, hst⟩ := commitCatalog_failed env catalog commit _ herrs
  refine ⟨?_, ?_, ?_, herr⟩
  · have hp : reconcileTemplates env catalog templateMap templates
        { st := s2, versionCommits := versionCommits, errs := [] } =
        reconcileTemplates env catalog templateMap postB
          (reconcileStep env catalog templateMap
            (reconcileTemplates env catalog templateMap preB
              { st := s2, versionCommits := versionCommits, errs := [] }) B) := by
      rw [hB, reconcileTemplates_append, reconcileTemplates_cons]
    obtain ⟨⟨e3, hl3, -⟩, -⟩ := reconcileTemplates_grows env catalog templateMap postB
      (reconcileStep env catalog templateMap
        (reconcileTemplates env catalog templateMap preB
          { st := s2, versionCommits := versionCommits, errs := [] }) B)
    rw [← hp, reconcileStep_st] at hl3
    have hcalls : ∃ callsB t,
        (outcomeAt env catalog templateMap
          { st := s2, versionCommits := versionCommits, errs := [] } preB B).2.log =
          (reconcileTemplates env catalog templateMap preB
            { st := s2, versionCommits := versionCommits, errs := [] }).st.log ++ callsB ∧
        t.Spec.DisplayName = B.Spec.DisplayName ∧
        (mapGet templateMap B.Name = none → Call.TemplateCreate t ∈ callsB ∧ t.Name = B.Name) ∧
        (∀ existing, mapGet templateMap B.Name = some existing →
          Call.TemplateUpdate t ∈ callsB ∧ t.Name = existing.Name) := by
      unfold outcomeAt reconcileTemplate at hsucc ⊢
      rcases hm : mapGet templateMap B.Name with _ | existing
      · simp only [hm] at hsucc ⊢
        obtain ⟨ext, t, hlog, hmem, hname, hdisp⟩ := createTemplate_ok env B catalog _ hsucc
        exact ⟨ext, t, hlog, hdisp, fun _ => ⟨hmem, hname⟩, fun _ h => (by cases h)⟩
      · simp only [hm] at hsucc ⊢
        obtain ⟨ext, t, hlog, hmem, hname, hdisp⟩ := updateTemplate_ok env existing B _ hsucc
        refine ⟨ext, t, hlog, hdisp, fun h => (by cases h), fun ex h => ?_⟩
        cases h
        exact ⟨hmem, hname⟩
    obtain ⟨callsB, t, hlogB, hdisp, hcreate, hupdate⟩ := hcalls
    refine ⟨callsB, e3 ++ [Call.CatalogUpdate (commitCatalog env catalog commit
      (reconcileTemplates env catalog templateMap templates
        { st := s2, versionCommits := versionCommits, errs := [] })).catalog], t,
      hlogB, ?_, hdisp, hcreate, hupdate⟩
    rw [hst]
    unfold outcomeAt at hlogB
    simp only [St.call, hl3, hlogB, List.append_assoc]
  · rw [hcat]
    exact hgone
  · rw [hst]
    simp [St.call]

/-- C2, witness: the create of `T1` is refused, `T2` is created all the same, the
entry of `T1` leaves the version-commit map and the sync returns an error. -/
theorem update_isolates_failure_witness :
    deleteTemplates refusingEnv [] { log := [], tagMap := [] } = (none, emptySt) ∧
    loadExisting refusingEnv demoCatalog emptySt =
      (.ok [], { log := [Call.TemplateList "catalog.cattle.io/name=c", Call.TemplateContentList],
                 tagMap := [] }) ∧
    mapGet (update refusingEnv demoCatalog [helloTemplate, otherTemplate] [] demoCommits "c1"
      []).catalog.Status.HelmVersionCommits helloTemplate.Spec.DisplayName = none ∧
    (update refusingEnv demoCatalog [helloTemplate, otherTemplate] [] demoCommits "c1"
      []).st.log.getLast? =
      some (Call.CatalogUpdate
        (update refusingEnv demoCatalog [helloTemplate, otherTemplate] [] demoCommits "c1"
          []).catalog) ∧
    (update refusingEnv demoCatalog [helloTemplate, otherTemplate] [] demoCommits "c1"
      []).err ≠ none :=
  ⟨rfl, rfl,
   (update_isolates_failure refusingEnv demoCatalog [helloTemplate, otherTemplate] []
      demoCommits "c1" [] emptySt _ [] rfl rfl
      [] [otherTemplate] helloTemplate rfl (by decide)
      [helloTemplate] [] otherTemplate rfl (by decide)).2⟩

/-! ## The file map of a converted version -/

theorem mapKeys_mapSet_of_mem {V : Type} (m : GoMap V) (k : String) (v : V)
    (h : k ∈ mapKeys m) : mapKeys (mapSet m k v) = mapKeys m := by
  unfold mapSet
  rw [if_pos h]
  unfold mapKeys
  rw [List.map_map]
  apply List.map_congr_left
  intro e _
  by_cases hk : e.1 = k <;> simp [hk]

theorem mapGet_mem {V : Type} (m : GoMap V) (k : String) (v : V)
    (h : mapGet m k = some v) : (k, v) ∈ m := by
  induction m with
  | nil => simp [mapGet] at h
  | cons e rest ih =>
    obtain ⟨k1, v1⟩ := e
    unfold mapGet at h
    split_ifs at h with hk
    · cases h
      subst hk
      exact List.mem_cons_self _ _
    · exact List.mem_cons_of_mem _ (ih h)

theorem mapGet_of_key {V : Type} (m : GoMap V) (k : String) (h : k ∈ mapKeys m) :
    ∃ v, mapGet m k = some v := by
  induction m with
  | nil => simp [mapKeys] at h
  | cons e rest ih =>
    obtain ⟨k1, v1⟩ := e
    unfold mapGet
    by_cases hk : k1 = k
    · exact ⟨v1, by simp [hk]⟩
    · simp only [hk, if_false]
      apply ih
      simp only [mapKeys, List.map_cons, List.mem_cons] at h
      rcases h with h | h
      · exact absurd h.symm hk
      · exact h

/-- A successful run of the loop of `convertFile` over names of the record's map
leaves the names of the map as they were. -/
theorem convertFileLoop_keys (env : Env) (spec : TemplateVersionSpec)
    (l : List (String × String)) (tv tv2 : TemplateVersion) (s s2 : St) (fs : GoMap String)
    (h : convertFileLoop env spec l tv s = (.ok tv2, s2)) (hfs : tv.Spec.Files = some fs)
    (hsub : ∀ e ∈ l, e.1 ∈ mapKeys fs) :
    ∃ fs2, tv2.Spec.Files = some fs2 ∧ mapKeys fs2 = mapKeys fs := by
  induction l generalizing tv s fs with
  | nil =>
    unfold convertFileLoop at h
    cases h
    exact ⟨fs, hfs, rfl⟩
  | cons x rest ih =>
    obtain ⟨name, file⟩ := x
    obtain ⟨tv1, s1, h1, h2⟩ := convertFileLoop_cons_ok env spec name file rest tv tv2 s s2 h
    obtain ⟨tag, content, files, -, -, hfiles, htv1⟩ :=
      convertFileEntry_ok env spec name file tv tv1 s s1 h1
    rw [hfs] at hfiles
    cases hfiles
    have hk := mapKeys_mapSet_of_mem fs name tag (hsub (name, file) (List.mem_cons_self _ _))
    obtain ⟨fs2, hfs2, hkeys⟩ := ih tv1 s1 (mapSet fs name tag) h2 (by rw [htv1])
      (fun e he => hk ▸ hsub e (List.mem_cons_of_mem _ he))
    exact ⟨fs2, hfs2, hkeys.trans hk⟩

/-- The map of a converted version: over a map of distinct file names, `convertFile`
leaves the same names, each sent to the tag `hex(sha256(gzip(content)))` of the
content the spec has under that name. -/
theorem convertFile_files (env : Env) (tv tv2 : TemplateVersion) (spec : TemplateVersionSpec)
    (s s2 : St) (files : GoMap String) (hbuilt : tv.Spec = spec)
    (h : convertFile env tv spec s = (.ok tv2, s2)) (hfiles : spec.Files = some files)
    (hnodup : (mapKeys files).Nodup) :
    ∃ files2, tv2.Spec.Files = some files2 ∧ mapKeys files2 = mapKeys files ∧
      ∀ name content, (name, content) ∈ files →
        ∃ gz, env.codec.gzip content = .ok gz ∧
          mapGet files2 name = some (env.codec.hex (env.codec.sha256 gz)) := by
  have hok := convertFile_ok env tv tv2 spec s s2 hbuilt h
  have hkeys : ∃ fs2, tv2.Spec.Files = some fs2 ∧ mapKeys fs2 = mapKeys files := by
    unfold convertFile at h
    rw [hfiles] at h
    simp only at h
    refine convertFileLoop_keys env spec _ tv tv2 s s2 files h (hbuilt ▸ hfiles) ?_
    intro e he
    exact List.mem_map_of_mem Prod.fst ((env.rt.rangeOrder_perm files).mem_iff.mp he)
  obtain ⟨files2, hf2, hk2⟩ := hkeys
  refine ⟨files2, hf2, hk2, ?_⟩
  intro name content hmem
  have hin : name ∈ mapKeys files2 := by
    rw [hk2]
    exact List.mem_map_of_mem Prod.fst hmem
  obtain ⟨v, hv⟩ := mapGet_of_key files2 name hin
  obtain ⟨-, files0, e0, hf0, he0, hname, content2, hz⟩ :=
    hok.2.2.2.2.2 files2 hf2 (name, v) (mapGet_mem files2 name v hv)
  rw [hfiles] at hf0
  cases hf0
  have heq : e0 = (name, content) :=
    List.inj_on_of_nodup_map hnodup he0 hmem hname
  subst heq
  unfold zipAndHash at hz
  rcases hgz : env.codec.gzip content with err | gz
  · simp [hgz] at hz
  · simp only [hgz, Except.ok.injEq, Prod.mk.injEq] at hz
    exact ⟨gz, rfl, by rw [hv, hz.1]⟩

/-! ## Records created by createTemplateVersions -/

/-- A successful iteration of `createTemplateVersions`: the version was converted and
the Create of the converted record is the last call. -/
theorem createTemplateVersion_ok (env : Env) (template : Template) (spec : TemplateVersionSpec)
    (s s1 : St) (h : createTemplateVersion env template spec s = (none, s1)) :
    ∃ tv sb, convertFile env
        { Name := template.Name ++ "-" ++ spec.Version,
          Labels := [(TemplateNameLabel, template.Name)], Spec := spec } spec s = (.ok tv, sb) ∧
      s1 = sb.call (Call.TemplateVersionCreate tv) := by
  unfold createTemplateVersion at h
  dsimp only at h
  rcases hc : convertFile env
      { Name := template.Name ++ "-" ++ spec.Version,
        Labels := [(TemplateNameLabel, template.Name)], Spec := spec } spec s with ⟨r, sb⟩
  rw [hc] at h
  cases r with
  | error err => simp at h
  | ok tv =>
    refine ⟨tv, sb, rfl, ?_⟩
    simp only at h
    split at h
    · split at h
      · cases h
      · cases h; rfl
    · cases h; rfl

/-- When `createTemplateVersions` returns no error, every version of the list was
converted, at the state the loop had reached, and the Create of the converted record
is among the calls issued. -/
theorem createTemplateVersions_ok (env : Env) (l : List TemplateVersionSpec)
    (template : Template) (s : St)
    (hok : (createTemplateVersions env l template s).1 = none) :
    ∀ spec ∈ l, ∃ tv sa sb, convertFile env
        { Name := template.Name ++ "-" ++ spec.Version,
          Labels := [(TemplateNameLabel, template.Name)], Spec := spec } spec sa = (.ok tv, sb) ∧
      ∃ ext, (createTemplateVersions env l template s).2.log = s.log ++ ext ∧
        Call.TemplateVersionCreate tv ∈ ext := by
  induction l generalizing s with
  | nil => intro spec hspec; cases hspec
  | cons v rest ih =>
    unfold createTemplateVersions at hok ⊢
    rcases hstep : createTemplateVersion env template v s with ⟨r, s1⟩
    simp only [hstep] at hok ⊢
    cases r with
    | some err => simp at hok
    | none =>
      simp only at hok ⊢
      obtain ⟨tv, sb, hconv, hs1⟩ := createTemplateVersion_ok env template v s s1 hstep
      obtain ⟨⟨e0, hl0, -⟩, -⟩ := convertFile_grows env
        { Name := template.Name ++ "-" ++ v.Version,
          Labels := [(TemplateNameLabel, template.Name)], Spec := v } v s
      rw [hconv] at hl0
      simp only at hl0
      have hs1log : s1.log = s.log ++ (e0 ++ [Call.TemplateVersionCreate tv]) := by
        rw [hs1]; simp [St.call, hl0]
      obtain ⟨⟨e3, hl3, -⟩, -⟩ := createTemplateVersions_grows env rest template s1
      intro spec hspec
      rcases List.mem_cons.mp hspec with rfl | hspec
      · refine ⟨tv, s, sb, hconv, e0 ++ [Call.TemplateVersionCreate tv] ++ e3, ?_, by simp⟩
        rw [hl3, hs1log]; simp
      · obtain ⟨tv2, sa, sb2, hconv2, ext, hlog, hmem⟩ := ih s1 hok spec hspec
        refine ⟨tv2, sa, sb2, hconv2, e0 ++ [Call.TemplateVersionCreate tv] ++ ext, ?_, ?_⟩
        · rw [hlog, hs1log]; simp
        · exact List.mem_append_right _ hmem

/-! ## Versions created on the create path (C11) -/

/-- With a codec and a content store that do not fail, `convertTemplateIcon` succeeds. -/
theorem convertTemplateIcon_of_ok (env : Env)
    (hz : ∀ c, ∃ b, env.codec.gzip c = .ok b)
    (hc : ∀ log tc, ∃ r, env.m.templateContentCreate log tc = .ok r)
    (t : Template) (s : St) : ∃ t2 s1, convertTemplateIcon env t s = (.ok t2, s1) := by
  unfold convertTemplateIcon
  obtain ⟨b, hb⟩ := hz t.Spec.Icon
  simp only [zipAndHash, hb]
  have h1 := createIfUnknown_of_ok env (env.codec.hex (env.codec.sha256 b))
    (env.codec.base64 b) s hc
  rcases hcr : createIfUnknown env (env.codec.hex (env.codec.sha256 b))
    (env.codec.base64 b) s with ⟨r, s1⟩
  rw [hcr] at h1
  simp only at h1
  subst h1
  exact ⟨_, _, rfl⟩

/-- With a codec and a content store that do not fail, and a version store whose
creates fail with nothing but "already exists", `createTemplateVersions` returns no
error. -/
theorem createTemplateVersions_of_ok (env : Env)
    (hz : ∀ c, ∃ b, env.codec.gzip c = .ok b)
    (hc : ∀ log tc, ∃ r, env.m.templateContentCreate log tc = .ok r)
    (hv : ∀ log tv err, env.m.templateVersionCreate log tv = .error err →
      IsAlreadyExists err = true)
    (versionsSpec : List TemplateVersionSpec) (template : Template) (s : St) :
    (createTemplateVersions env versionsSpec template s).1 = none := by
  induction versionsSpec generalizing s with
  | nil => rfl
  | cons spec rest ih =>
    unfold createTemplateVersions
    have hstep : ∃ s1, createTemplateVersion env template spec s = (none, s1) := by
      unfold createTemplateVersion
      dsimp only
      obtain ⟨tv2, h2⟩ := convertFile_of_ok env spec hz hc
        { Name := template.Name ++ "-" ++ spec.Version,
          Labels := [(TemplateNameLabel, template.Name)], Spec := spec } s rfl
      rcases hcf : convertFile env
        { Name := template.Name ++ "-" ++ spec.Version,
          Labels := [(TemplateNameLabel, template.Name)], Spec := spec } spec s with ⟨r, s1⟩
      rw [hcf] at h2
      simp only at h2
      subst h2
      dsimp only
      rcases hcr : env.m.templateVersionCreate s1.log tv2 with err | r
      · have := hv s1.log tv2 err hcr
        simp [this]
      · exact ⟨_, rfl⟩
    obtain ⟨s1, h1⟩ := hstep
    rw [h1]
    exact ih s1

/-- C11: on the create path, for a desired template with no existing record and with
the codec and every store call succeeding, `createTemplate` returns no error and, for
every version of the template, has issued the Create of a TemplateVersion named
`<created template name>-<version>`, labelled with the created template's name, with
the desired version string and digest, whose `Files` map (over distinct file names)
keeps the names and sends each one to `hex(sha256(gzip(content)))` of the content the
desired version has under that name: the versions are taken from the snapshot made
before the Template copy was stripped. -/
theorem createTemplate_versions (env : Env) (catalog : Catalog) (templateMap : GoMap Template)
    (template : Template) (s : St)
    (hnew : mapGet templateMap template.Name = none)
    (hz : ∀ c, ∃ b, env.codec.gzip c = .ok b)
    (hc : ∀ log tc, ∃ r, env.m.templateContentCreate log tc = .ok r)
    (ht : ∀ log t, ∃ r, env.m.templateCreate log t = .ok r)
    (hv : ∀ log tv, ∃ r, env.m.templateVersionCreate log tv = .ok r) :
    (reconcileTemplate env catalog templateMap template s).1 = none ∧
    ∃ t2 s1 created,
      convertTemplateIcon env
        { template with
          Labels := [(CatalogNameLabel, catalog.Name)],
          Spec := { template.Spec with Versions := template.Spec.Versions.map stripVersion } }
        s = (.ok t2, s1) ∧
      env.m.templateCreate s1.log t2 = .ok created ∧
      ∀ spec ∈ template.Spec.Versions, ∃ tv ext,
        (reconcileTemplate env catalog templateMap template s).2.log = s.log ++ ext ∧
        Call.TemplateVersionCreate tv ∈ ext ∧
        tv.Name = created.Name ++ "-" ++ spec.Version ∧
        tv.Labels = [(TemplateNameLabel, created.Name)] ∧
        tv.Spec.Version = spec.Version ∧
        tv.Spec.Digest = spec.Digest ∧
        ∀ files, spec.Files = some files → (mapKeys files).Nodup →
          ∃ files2, tv.Spec.Files = some files2 ∧ mapKeys files2 = mapKeys files ∧
            ∀ name content, (name, content) ∈ files →
              ∃ gz, env.codec.gzip content = .ok gz ∧
                mapGet files2 name = some (env.codec.hex (env.codec.sha256 gz)) := by
  have hrec : reconcileTemplate env catalog templateMap template s =
      createTemplate env template catalog s := by
    simp only [reconcileTemplate, hnew]
  rw [hrec]
  obtain ⟨t2, s1, hicon⟩ := convertTemplateIcon_of_ok env hz hc
    { template with
      Labels := [(CatalogNameLabel, catalog.Name)],
      Spec := { template.Spec with Versions := template.Spec.Versions.map stripVersion } } s
  obtain ⟨created, hcreated⟩ := ht s1.log t2
  have hv2 : ∀ log tv err, env.m.templateVersionCreate log tv = .error err →
      IsAlreadyExists err = true := by
    intro log tv err herr
    obtain ⟨r, hr⟩ := hv log tv
    rw [hr] at herr
    cases herr
  have hct : createTemplate env template catalog s =
      createTemplateVersions env template.Spec.Versions created
        (s1.call (Call.TemplateCreate t2)) := by
    simp only [createTemplate, hicon, hcreated]
  have hnone := createTemplateVersions_of_ok env hz hc hv2 template.Spec.Versions created
    (s1.call (Call.TemplateCreate t2))
  rw [hct]
  refine ⟨hnone, t2, s1, created, hicon, hcreated, ?_⟩
  intro spec hspec
  obtain ⟨tv, sa, sb, hconv, ext, hlog, hmem⟩ :=
    createTemplateVersions_ok env template.Spec.Versions created
      (s1.call (Call.TemplateCreate t2)) hnone spec hspec
  obtain ⟨⟨e1, hl1, -⟩, -⟩ := convertTemplateIcon_grows env
    { template with
      Labels := [(CatalogNameLabel, catalog.Name)],
      Spec := { template.Spec with Versions := template.Spec.Versions.map stripVersion } } s
  rw [hicon] at hl1
  simp only at hl1
  obtain ⟨hname, hlabels, hversion, hdigest, -, -⟩ := convertFile_ok env _ tv spec sa sb rfl hconv
  refine ⟨tv, e1 ++ [Call.TemplateCreate t2] ++ ext, ?_, List.mem_append_right _ hmem,
    hname, hlabels, hversion, hdigest, ?_⟩
  · rw [hlog]; simp [St.call, hl1]
  · intro files hfiles hnodup
    exact convertFile_files env _ tv spec sa sb files rfl hconv hfiles hnodup

/-- C11, witness: `T1` with the version `1.0` of digest `d1` and the file `a` of
content `hello`, against empty stores: the version `T1-1.0` is created with digest `d1`
and `a` sent to the tag of `hello`. -/
theorem createTemplate_versions_witness :
    mapGet ([] : GoMap Template) helloTemplate.Name = none ∧
    (reconcileTemplate plainEnv demoCatalog [] helloTemplate emptySt).1 = none ∧
    (reconcileTemplate plainEnv demoCatalog [] helloTemplate emptySt).2.log =
      [Call.TemplateContentCreate { Name := "#ico", Data := "=ico" },
       Call.TemplateCreate
         { Name := "T1", Labels := [(CatalogNameLabel, "c")],
           Spec := { DisplayName := "T1", Icon := "#ico",
                     Versions := [{ Version := "1.0", Digest := "d1", Files := none,
                                    Readme := "", AppReadme := "" }] } },
       Call.TemplateContentCreate { Name := "#hello", Data := "=hello" },
       Call.TemplateVersionCreate
         { Name := "T1-1.0", Labels := [(TemplateNameLabel, "T1")],
           Spec := { Version := "1.0", Digest := "d1", Files := some [("a", "#hello")],
                     Readme := "#hello", AppReadme := "" } }] :=
  ⟨rfl,
   (createTemplate_versions plainEnv demoCatalog [] helloTemplate emptySt rfl
      (fun _ => ⟨_, rfl⟩) (fun _ tc => ⟨tc, rfl⟩) (fun _ t => ⟨t, rfl⟩)
      (fun _ tv => ⟨tv, rfl⟩)).1,
   rfl⟩

/-! ## The first loop of updateTemplate, version by version -/

/-- Every Update issued by an iteration of the first loop of `updateTemplate` is gated
by a digest difference. -/
theorem updateTemplateVersion_gated (env : Env) (template : Template)
    (tvByVersion : GoMap TemplateVersion) (versions : List TemplateVersionSpec)
    (v : TemplateVersionSpec) (hv : v ∈ versions) (s : St) :
    Grows (Call.gatedUpdate tvByVersion versions) s
      (updateTemplateVersion env template tvByVersion v s).2 := by
  have h1 := (convertFile_grows env { Name := "", Labels := [], Spec := v } v s).mono
    (Q := Call.gatedUpdate tvByVersion versions)
    (fun c hc => by
      intro r hr
      subst hr
      simp [Call.isContentCreate] at hc)
  unfold updateTemplateVersion
  dsimp only
  rcases hconv : convertFile env { Name := "", Labels := [], Spec := v } v s with ⟨r, s1⟩
  rw [hconv] at h1
  cases r with
  | error err => exact h1
  | ok tvc =>
    obtain ⟨-, -, hver, hdig, -, -⟩ := convertFile_ok env _ tvc v s s1 rfl hconv
    dsimp only
    rcases hget : mapGet tvByVersion v.Version with _ | tv
    · have h2 : ∀ tv, Grows (Call.gatedUpdate tvByVersion versions) s1
          (s1.call (Call.TemplateVersionCreate tv)) :=
        fun tv => Grows.call _ _ (fun r hr => by cases hr)
      dsimp only
      split <;> exact h1.trans (h2 _)
    · dsimp only
      by_cases hd : tv.Spec.Digest = v.Digest
      · simp only [hd, ne_eq, not_true_eq_false, if_false]
        exact h1
      · simp only [ne_eq, hd, not_false_eq_true, if_true]
        have h2 : Grows (Call.gatedUpdate tvByVersion versions) s1
            (s1.call (Call.TemplateVersionUpdate { tv with Spec := tvc.Spec })) := by
          apply Grows.call
          intro r hr
          cases hr
          exact ⟨tv, v, hv, hget, hd, rfl, rfl, hver, hdig⟩
        split <;> exact h1.trans h2

theorem updateTemplateVersions_gated (env : Env) (template : Template)
    (tvByVersion : GoMap TemplateVersion) (versions : List TemplateVersionSpec)
    (l : List TemplateVersionSpec) (hl : ∀ v ∈ l, v ∈ versions) (s : St) :
    Grows (Call.gatedUpdate tvByVersion versions) s
      (updateTemplateVersions env template tvByVersion l s).2 := by
  induction l generalizing s with
  | nil => exact Grows.refl _ _
  | cons v rest ih =>
    have h1 := updateTemplateVersion_gated env template tvByVersion versions v
      (hl v (List.mem_cons_self _ _)) s
    unfold updateTemplateVersions
    split
    · rename_i hc; rw [hc] at h1; exact h1
    · rename_i s1 hc; rw [hc] at h1
      exact h1.trans (ih (fun w hw => hl w (List.mem_cons_of_mem _ hw)) s1)

/-- The first loop of `updateTemplate` over `pre ++ v :: post`, when it ends without
error: the loop over `pre`, the iteration of `v` and the loop over `post` each end
without error, one after the other. -/
theorem updateTemplateVersions_split (env : Env) (template : Template)
    (tvByVersion : GoMap TemplateVersion) (pre post : List TemplateVersionSpec)
    (v : TemplateVersionSpec) (s s2 : St)
    (h : updateTemplateVersions env template tvByVersion (pre ++ v :: post) s = (none, s2)) :
    ∃ sp sv, updateTemplateVersions env template tvByVersion pre s = (none, sp) ∧
      updateTemplateVersion env template tvByVersion v sp = (none, sv) ∧
      updateTemplateVersions env template tvByVersion post sv = (none, s2) := by
  induction pre generalizing s with
  | nil =>
    simp only [List.nil_append] at h
    unfold updateTemplateVersions at h
    rcases hstep : updateTemplateVersion env template tvByVersion v s with ⟨r, sv⟩
    rw [hstep] at h
    cases r with
    | some err => simp at h
    | none => exact ⟨s, sv, rfl, hstep, h⟩
  | cons w rest ih =>
    simp only [List.cons_append] at h
    unfold updateTemplateVersions at h
    rcases hstep : updateTemplateVersion env template tvByVersion w s with ⟨r, s1⟩
    rw [hstep] at h
    cases r with
    | some err => simp at h
    | none =>
      obtain ⟨sp, sv, hp, hv, hpost⟩ := ih s1 h
      refine ⟨sp, sv, ?_, hv, hpost⟩
      conv_lhs => unfold updateTemplateVersions
      rw [hstep]
      exact hp

/-- An iteration of the first loop of `updateTemplate` that ends without error, on a
version matched by the record `tv`: the files were interned, and the Update of `tv`
with the converted spec followed exactly when the digests differ. -/
theorem updateTemplateVersion_none (env : Env) (template : Template)
    (tvByVersion : GoMap TemplateVersion) (v : TemplateVersionSpec) (s sv : St)
    (tv : TemplateVersion) (hget : mapGet tvByVersion v.Version = some tv)
    (h : updateTemplateVersion env template tvByVersion v s = (none, sv)) :
    ∃ tvc sc, convertFile env { Name := "", Labels := [], Spec := v } v s = (.ok tvc, sc) ∧
      sv.log = sc.log ++ (if tv.Spec.Digest ≠ v.Digest
        then [Call.TemplateVersionUpdate { tv with Spec := tvc.Spec }] else []) ∧
      sv.tagMap = sc.tagMap := by
  unfold updateTemplateVersion at h
  dsimp only at h
  rcases hconv : convertFile env { Name := "", Labels := [], Spec := v } v s with ⟨r, sc⟩
  rw [hconv] at h
  cases r with
  | error err => simp at h
  | ok tvc =>
    refine ⟨tvc, sc, rfl, ?_⟩
    simp only [hget] at h
    by_cases hd : tv.Spec.Digest = v.Digest
    · simp only [hd, ne_eq, not_true_eq_false, if_false] at h ⊢
      cases h
      simp
    · simp only [ne_eq, hd, not_false_eq_true, if_true] at h ⊢
      split at h
      · cases h
      · cases h
        exact ⟨rfl, rfl⟩

/-- The phases of an `updateTemplate` that returns no error, after a successful listing. -/
theorem updateTemplate_phases (env : Env) (template toUpdate : Template) (s : St)
    (items : List TemplateVersion)
    (hlist : env.m.templateVersionList s.log (TemplateNameLabel ++ "=" ++ template.Name) =
      .ok items)
    (hok : (updateTemplate env template toUpdate s).1 = none) :
    ∃ s2 s3 t2 s4,
      updateTemplateVersions env template (tvByVersionOf items) toUpdate.Spec.Versions
        (s.call (Call.TemplateVersionList (TemplateNameLabel ++ "=" ++ template.Name))) =
        (none, s2) ∧
      deleteStaleVersions env (toUpdate.Spec.Versions.map (fun v => v.Version))
        (env.rt.rangeOrder (tvByVersionOf items)) s2 = (none, s3) ∧
      convertTemplateIcon env
        { template with Spec := { toUpdate.Spec with
            Versions := toUpdate.Spec.Versions.map stripVersion } } s3 = (.ok t2, s4) ∧
      (updateTemplate env template toUpdate s).2 = s4.call (Call.TemplateUpdate t2) := by
  have hdef : updateTemplate env template toUpdate s =
      match updateTemplateVersions env template (tvByVersionOf items) toUpdate.Spec.Versions
        (s.call (Call.TemplateVersionList (TemplateNameLabel ++ "=" ++ template.Name))) with
      | (some err, s2) => (some err, s2)
      | (none, s2) =>
        match deleteStaleVersions env (toUpdate.Spec.Versions.map (fun v => v.Version))
          (env.rt.rangeOrder (tvByVersionOf items)) s2 with
        | (some err, s3) => (some err, s3)
        | (none, s3) =>
          match convertTemplateIcon env
            { template with Spec := { toUpdate.Spec with
                Versions := toUpdate.Spec.Versions.map stripVersion } } s3 with
          | (.error err, s4) => (some err, s4)
          | (.ok template2, s4) =>
            match env.m.templateUpdate s4.log template2 with
            | .error err => (some err, s4.call (Call.TemplateUpdate template2))
            | .ok _ => (none, s4.call (Call.TemplateUpdate template2)) := by
    unfold updateTemplate
    simp only [hlist]
  rw [hdef] at hok ⊢
  rcases h1 : updateTemplateVersions env template (tvByVersionOf items)
    toUpdate.Spec.Versions
    (s.call (Call.TemplateVersionList (TemplateNameLabel ++ "=" ++ template.Name)))
    with ⟨r1, s2⟩
  rw [h1] at hok
  cases r1 with
  | some err => simp at hok
  | none =>
    simp only at hok
    rcases h2 : deleteStaleVersions env (toUpdate.Spec.Versions.map (fun v => v.Version))
      (env.rt.rangeOrder (tvByVersionOf items)) s2 with ⟨r2, s3⟩
    rw [h2] at hok
    cases r2 with
    | some err => simp at hok
    | none =>
      simp only at hok
      rcases h3 : convertTemplateIcon env
        { template with Spec := { toUpdate.Spec with
            Versions := toUpdate.Spec.Versions.map stripVersion } } s3 with ⟨r3, s4⟩
      rw [h3] at hok
      cases r3 with
      | error err => simp at hok
      | ok t2 =>
        refine ⟨s2, s3, t2, s4, rfl, h2, h3, ?_⟩
        simp only [h2, h3]
        split <;> rfl

theorem updateTemplateVersions_append_none (env : Env) (template : Template)
    (tvByVersion : GoMap TemplateVersion) (pre l : List TemplateVersionSpec) (s sp : St)
    (h : updateTemplateVersions env template tvByVersion pre s = (none, sp)) :
    updateTemplateVersions env template tvByVersion (pre ++ l) s =
      updateTemplateVersions env template tvByVersion l sp := by
  induction pre generalizing s with
  | nil =>
    unfold updateTemplateVersions at h
    cases h
    rfl
  | cons w rest ih =>
    unfold updateTemplateVersions at h
    rcases hstep : updateTemplateVersion env template tvByVersion w s with ⟨r, s1⟩
    rw [hstep] at h
    cases r with
    | some err => simp at h
    | none =>
      simp only [List.cons_append]
      conv_lhs => unfold updateTemplateVersions
      rw [hstep]
      exact ih s1 h

theorem deleteStaleVersions_deletes (env : Env) (keep : List String)
    (l : List (String × TemplateVersion)) (s : St) :
    Grows (fun c => c.isTemplateVersionDelete = true) s
      (deleteStaleVersions env keep l s).2 := by
  induction l generalizing s with
  | nil => exact Grows.refl _ _
  | cons e rest ih =>
    obtain ⟨v, tv⟩ := e
    unfold deleteStaleVersions
    have h2 : Grows (fun c => c.isTemplateVersionDelete = true) s
        (s.call (Call.TemplateVersionDelete tv.Name)) :=
      Grows.call _ _ rfl
    split
    · dsimp only
      split
      · split
        · exact h2
        · exact h2.trans (ih _)
      · exact h2.trans (ih _)
    · exact ih _

/-- Every Update issued by `updateTemplate`, in a run that ends with or without error,
is gated by a digest difference. -/
theorem updateTemplate_gated (env : Env) (template toUpdate : Template) (s : St)
    (items : List TemplateVersion)
    (hlist : env.m.templateVersionList s.log (TemplateNameLabel ++ "=" ++ template.Name) =
      .ok items) :
    Grows (Call.gatedUpdate (tvByVersionOf items) toUpdate.Spec.Versions) s
      (updateTemplate env template toUpdate s).2 := by
  have hvac : ∀ c : Call, (∀ r, c ≠ Call.TemplateVersionUpdate r) →
      Call.gatedUpdate (tvByVersionOf items) toUpdate.Spec.Versions c :=
    fun c hc r hr => absurd hr (hc r)
  have h0 : Grows (Call.gatedUpdate (tvByVersionOf items) toUpdate.Spec.Versions) s
      (s.call (Call.TemplateVersionList (TemplateNameLabel ++ "=" ++ template.Name))) :=
    Grows.call _ _ (hvac _ (fun r hr => by cases hr))
  have h1 := updateTemplateVersions_gated env template (tvByVersionOf items)
    toUpdate.Spec.Versions toUpdate.Spec.Versions (fun v hv => hv)
    (s.call (Call.TemplateVersionList (TemplateNameLabel ++ "=" ++ template.Name)))
  unfold updateTemplate
  simp only [hlist]
  rcases hc1 : updateTemplateVersions env template (tvByVersionOf items)
    toUpdate.Spec.Versions
    (s.call (Call.TemplateVersionList (TemplateNameLabel ++ "=" ++ template.Name)))
    with ⟨r1, s2⟩
  rw [hc1] at h1
  cases r1 with
  | some err => exact h0.trans h1
  | none =>
    dsimp only
    have h2 := (deleteStaleVersions_deletes env (toUpdate.Spec.Versions.map (fun v => v.Version))
      (env.rt.rangeOrder (tvByVersionOf items)) s2).mono
      (Q := Call.gatedUpdate (tvByVersionOf items) toUpdate.Spec.Versions)
      (fun c hc => hvac c (fun r hr => by
        subst hr
        simp [Call.isTemplateVersionDelete] at hc))
    rcases hc2 : deleteStaleVersions env (toUpdate.Spec.Versions.map (fun v => v.Version))
      (env.rt.rangeOrder (tvByVersionOf items)) s2 with ⟨r2, s3⟩
    rw [hc2] at h2
    try simp only [hc2]
    cases r2 with
    | some err => exact (h0.trans h1).trans h2
    | none =>
      try dsimp only
      have h3 := (convertTemplateIcon_grows env
        { template with Spec := { toUpdate.Spec with
            Versions := toUpdate.Spec.Versions.map stripVersion } } s3).mono
        (Q := Call.gatedUpdate (tvByVersionOf items) toUpdate.Spec.Versions)
        (fun c hc => hvac c (fun r hr => by
          subst hr
          simp [Call.isContentCreate] at hc))
      rcases hc3 : convertTemplateIcon env
        { template with Spec := { toUpdate.Spec with
            Versions := toUpdate.Spec.Versions.map stripVersion } } s3 with ⟨r3, s4⟩
      rw [hc3] at h3
      try simp only [hc3]
      cases r3 with
      | error err => exact ((h0.trans h1).trans h2).trans h3
      | ok t2 =>
        try dsimp only
        have h4 : Grows (Call.gatedUpdate (tvByVersionOf items) toUpdate.Spec.Versions) s4
            (s4.call (Call.TemplateUpdate t2)) :=
          Grows.call _ _ (hvac _ (fun r hr => by cases hr))
        split <;> exact (((h0.trans h1).trans h2).trans h3).trans h4

/-! ## The digest gate of updateTemplate (C1) -/

/-- C1 (as amended): in `updateTemplate`, over the existing records as listed, a
TemplateVersion Update is issued only for a record matched by a desired version whose
digest differs from the stored one, in every run; and when `updateTemplate` returns no
error, then for every desired version whose version string matches an existing record
the loop reaches it, interns its files, and issues in its iteration the Update of that
record if and only if the stored digest differs from the desired digest: with equal
digests the iteration issues nothing beyond the creates of contents, and in both cases
the tag of every file of the version is in the known-tag set afterwards. -/
theorem updateTemplate_digest (env : Env) (template toUpdate : Template) (s : St)
    (items : List TemplateVersion)
    (hlist : env.m.templateVersionList s.log (TemplateNameLabel ++ "=" ++ template.Name) =
      .ok items) :
    (∃ ext, (updateTemplate env template toUpdate s).2.log = s.log ++ ext ∧
      ∀ c ∈ ext, ∀ r, c = Call.TemplateVersionUpdate r →
        ∃ tv v, v ∈ toUpdate.Spec.Versions ∧
          mapGet (tvByVersionOf items) v.Version = some tv ∧
          tv.Spec.Digest ≠ v.Digest ∧ r.Name = tv.Name ∧ r.Labels = tv.Labels ∧
          r.Spec.Version = v.Version ∧ r.Spec.Digest = v.Digest) ∧
    ((updateTemplate env template toUpdate s).1 = none →
      ∀ pre v post tv, toUpdate.Spec.Versions = pre ++ v :: post →
        mapGet (tvByVersionOf items) v.Version = some tv →
        ∃ sp tvc sc interning after,
          updateTemplateVersions env template (tvByVersionOf items) pre
            (s.call (Call.TemplateVersionList (TemplateNameLabel ++ "=" ++ template.Name))) =
            (none, sp) ∧
          convertFile env { Name := "", Labels := [], Spec := v } v sp = (.ok tvc, sc) ∧
          sc.log = sp.log ++ interning ∧
          (∀ c ∈ interning, c.isContentCreate = true) ∧
          (updateTemplateVersions env template (tvByVersionOf items) (pre ++ [v])
            (s.call (Call.TemplateVersionList
              (TemplateNameLabel ++ "=" ++ template.Name)))).2.log =
            sc.log ++ (if tv.Spec.Digest ≠ v.Digest
              then [Call.TemplateVersionUpdate { tv with Spec := tvc.Spec }] else []) ∧
          (updateTemplate env template toUpdate s).2.log =
            sc.log ++ (if tv.Spec.Digest ≠ v.Digest
              then [Call.TemplateVersionUpdate { tv with Spec := tvc.Spec }] else []) ++ after ∧
          (∀ files, v.Files = some files → ∀ e ∈ files, ∃ tag content,
            zipAndHash env.codec e.2 = .ok (tag, content) ∧
            tag ∈ (updateTemplate env template toUpdate s).2.tagMap)) := by
  constructor
  · obtain ⟨⟨ext, hlog, hext⟩, -⟩ := updateTemplate_gated env template toUpdate s items hlist
    exact ⟨ext, hlog, hext⟩
  · intro hok pre v post tv hsplit hget
    obtain ⟨s2, s3, t2, s4, hloop, hdel, hicon, hfinal⟩ :=
      updateTemplate_phases env template toUpdate s items hlist hok
    rw [hsplit] at hloop
    obtain ⟨sp, sv, hpre, hstep, hpost⟩ := updateTemplateVersions_split env template
      (tvByVersionOf items) pre post v _ s2 hloop
    obtain ⟨tvc, sc, hconv, hsvlog, hsvtag⟩ := updateTemplateVersion_none env template
      (tvByVersionOf items) v sp sv tv hget hstep
    obtain ⟨⟨interning, hint, hintP⟩, -⟩ := convertFile_grows env
      { Name := "", Labels := [], Spec := v } v sp
    rw [hconv] at hint
    simp only at hint
    have g2 := updateTemplateVersions_grows env template (tvByVersionOf items) post sv
    rw [hpost] at g2
    have g3 := deleteStaleVersions_grows env (toUpdate.Spec.Versions.map (fun v => v.Version))
      (env.rt.rangeOrder (tvByVersionOf items)) s2
    rw [hdel] at g3
    have g4 := convertTemplateIcon_grows env
      { template with Spec := { toUpdate.Spec with
          Versions := toUpdate.Spec.Versions.map stripVersion } } s3
    rw [hicon] at g4
    obtain ⟨⟨e2, hl2, -⟩, ht2⟩ := g2
    obtain ⟨⟨e3, hl3, -⟩, ht3⟩ := g3
    obtain ⟨⟨e4, hl4, -⟩, ht4⟩ := g4
    simp only at hl2 hl3 hl4 ht2 ht3 ht4
    refine ⟨sp, tvc, sc, interning, e2 ++ e3 ++ e4 ++ [Call.TemplateUpdate t2],
      hpre, hconv, hint, hintP, ?_, ?_, ?_⟩
    · rw [updateTemplateVersions_append_none env template (tvByVersionOf items) pre [v] _ sp hpre]
      have : updateTemplateVersions env template (tvByVersionOf items) [v] sp = (none, sv) := by
        unfold updateTemplateVersions
        rw [hstep]
        rfl
      rw [this]
      exact hsvlog
    · rw [hfinal]
      simp only [St.call, hl4, hl3, hl2, hsvlog, List.append_assoc]
    · intro files hfiles e he
      obtain ⟨tag, content, hz, hmem⟩ :=
        (convertFile_ok env _ tvc v sp sc rfl hconv).2.2.2.2.1 files hfiles e he
      refine ⟨tag, content, hz, ?_⟩
      rw [hfinal]
      exact ht4 tag (ht3 tag (ht2 tag (hsvtag ▸ hmem)))

/-- C1, witness: the stored record of version `1.0` has digest `d0`, the desired one
`d1`; `updateTemplate` returns no error and has issued the Update of the record. -/
theorem updateTemplate_digest_witness :
    storedEnv.m.templateVersionList emptySt.log (TemplateNameLabel ++ "=" ++ helloTemplate.Name) =
      .ok [storedVersion] ∧
    (updateTemplate storedEnv helloTemplate helloTemplate emptySt).1 = none ∧
    mapGet (tvByVersionOf [storedVersion]) helloVersion.Version = some storedVersion ∧
    (updateTemplate storedEnv helloTemplate helloTemplate emptySt).2.log =
      [Call.TemplateVersionList "catalog.cattle.io/template_name=T1",
       Call.TemplateContentCreate { Name := "#hello", Data := "=hello" },
       Call.TemplateVersionUpdate
         { Name := "T1-1.0", Labels := [(TemplateNameLabel, "T1")],
           Spec := { Version := "1.0", Digest := "d1", Files := some [("a", "#hello")],
                     Readme := "#hello", AppReadme := "" } },
       Call.TemplateContentCreate { Name := "#ico", Data := "=ico" },
       Call.TemplateUpdate
         { Name := "T1", Labels := [],
           Spec := { DisplayName := "T1", Icon := "#ico",
                     Versions := [{ Version := "1.0", Digest := "d1", Files := none,
                                    Readme := "", AppReadme := "" }] } }] ∧
    ∃ sp tvc sc interning after,
      updateTemplateVersions storedEnv helloTemplate (tvByVersionOf [storedVersion]) []
        (emptySt.call (Call.TemplateVersionList
          (TemplateNameLabel ++ "=" ++ helloTemplate.Name))) = (none, sp) ∧
      convertFile storedEnv { Name := "", Labels := [], Spec := helloVersion } helloVersion sp =
        (.ok tvc, sc) ∧
      sc.log = sp.log ++ interning ∧
      (∀ c ∈ interning, c.isContentCreate = true) ∧
      (updateTemplateVersions storedEnv helloTemplate (tvByVersionOf [storedVersion])
        ([] ++ [helloVersion])
        (emptySt.call (Call.TemplateVersionList
          (TemplateNameLabel ++ "=" ++ helloTemplate.Name)))).2.log =
        sc.log ++ (if storedVersion.Spec.Digest ≠ helloVersion.Digest
          then [Call.TemplateVersionUpdate { storedVersion with Spec := tvc.Spec }] else []) ∧
      (updateTemplate storedEnv helloTemplate helloTemplate emptySt).2.log =
        sc.log ++ (if storedVersion.Spec.Digest ≠ helloVersion.Digest
          then [Call.TemplateVersionUpdate { storedVersion with Spec := tvc.Spec }] else []) ++
          after ∧
      (∀ files, helloVersion.Files = some files → ∀ e ∈ files, ∃ tag content,
        zipAndHash storedEnv.codec e.2 = .ok (tag, content) ∧
        tag ∈ (updateTemplate storedEnv helloTemplate helloTemplate emptySt).2.tagMap) :=
  ⟨rfl, rfl, rfl, rfl,
   (updateTemplate_digest storedEnv helloTemplate helloTemplate emptySt [storedVersion] rfl).2
     rfl [] helloVersion [] storedVersion rfl rfl⟩

/-- C1, counterexample: the desired versions are `0.9` and `1.0`, the stored record of
`1.0` has another digest, and the create of the content of `0.9` is refused:
`updateTemplate` returns that error at `0.9`, so for `1.0`, matched and of a differing
digest, no Update has been issued and the tag of its file is not in the known-tag set. -/
theorem updateTemplate_stops_at_first_error :
    helloVersion ∈ twoVersionTemplate.Spec.Versions ∧
    mapGet (tvByVersionOf [storedVersion]) helloVersion.Version = some storedVersion ∧
    storedVersion.Spec.Digest ≠ helloVersion.Digest ∧
    zipAndHash badContentEnv.codec "hello" = .ok ("#hello", "=hello") ∧
    updateTemplate badContentEnv helloTemplate twoVersionTemplate emptySt =
      (some storeDown,
       { log := [Call.TemplateVersionList "catalog.cattle.io/template_name=T1",
                 Call.TemplateContentCreate { Name := "#bad", Data := "=bad" }],
         tagMap := [] }) ∧
    (∀ r, Call.TemplateVersionUpdate r ∉
      (updateTemplate badContentEnv helloTemplate twoVersionTemplate emptySt).2.log) ∧
    "#hello" ∉ (updateTemplate badContentEnv helloTemplate twoVersionTemplate emptySt).2.tagMap :=
  ⟨by decide, rfl, by decide, rfl, rfl,
   fun r hr => by
     have h : (updateTemplate badContentEnv helloTemplate twoVersionTemplate emptySt).2.log =
       [Call.TemplateVersionList "catalog.cattle.io/template_name=T1",
        Call.TemplateContentCreate { Name := "#bad", Data := "=bad" }] := rfl
     rw [h] at hr
     simp at hr,
   by
     have h : (updateTemplate badContentEnv helloTemplate twoVersionTemplate emptySt).2.tagMap =
       [] := rfl
     rw [h]
     simp⟩

end CatalogManager
